import Mathlib

/-!
Verification of the snapshot builder and snapshot comparator of
mypy/server/astdiff.py.

The development shallowly embeds the Python module:

- SnapVal models the Python values that appear in snapshots: strings, ints,
  bools, None, tuples, lists, and the nested dicts used for class symbol
  tables (SnapshotItem in the source).
- cmpV models a total order on snapshot values extending the ordering that
  Python compares snapshot tuples with when sorting union members; only
  the comparator laws matter for the results proved here.
- compare_symbol_table_snapshots, snapshot_symbol_table, snapshot_definition,
  snapshot_type, snapshot_untyped_signature mirror the functions of the same
  names in the source.  Python exceptions (assert failures, the RuntimeError
  raised on a PartialType) are modelled by Option.none results.
-/

/-- A Python value occurring in a snapshot: primitives, tuples, lists and
the nested dicts that hold class member snapshots. -/
inductive SnapVal where
  | str (s : String)
  | int (n : Int)
  | bool (b : Bool)
  | none
  | tup (elems : List SnapVal)
  | list (elems : List SnapVal)
  | dict (entries : List (String × SnapVal))

/-- Three-way comparison from a linear order. -/
def cmpOfLinear {α : Type} [LinearOrder α] (a b : α) : Ordering :=
  if a < b then .lt else if a = b then .eq else .gt

/-- Index of the constructor of a snapshot value, used to order values of
different shapes. -/
def tagIdx : SnapVal → Nat
  | .str _ => 0 | .int _ => 1 | .bool _ => 2 | .none => 3
  | .tup _ => 4 | .list _ => 5 | .dict _ => 6

mutual

/-- Total order on snapshot values: by constructor tag first, then by
payload, lexicographically on sequences. -/
def cmpV : SnapVal → SnapVal → Ordering
  | .str a, .str b => cmpOfLinear a b
  | .int a, .int b => cmpOfLinear a b
  | .bool a, .bool b => cmpOfLinear a b
  | .none, .none => .eq
  | .tup a, .tup b => cmpList a b
  | .list a, .list b => cmpList a b
  | .dict a, .dict b => cmpTable a b
  | a, b => cmpOfLinear (tagIdx a) (tagIdx b)

/-- Lexicographic comparison of snapshot value sequences. -/
def cmpList : List SnapVal → List SnapVal → Ordering
  | [], [] => .eq
  | [], _ :: _ => .lt
  | _ :: _, [] => .gt
  | a :: as, b :: bs =>
    match cmpV a b with
    | .eq => cmpList as bs
    | o => o

/-- Lexicographic comparison of keyed snapshot value sequences. -/
def cmpTable : List (String × SnapVal) → List (String × SnapVal) → Ordering
  | [], [] => .eq
  | [], _ :: _ => .lt
  | _ :: _, [] => .gt
  | (k1, v1) :: as, (k2, v2) :: bs =>
    match cmpOfLinear k1 k2 with
    | .eq =>
      match cmpV v1 v2 with
      | .eq => cmpTable as bs
      | o => o
    | o => o

end

theorem cmpOfLinear_eq_iff {α : Type} [LinearOrder α] {a b : α} :
    cmpOfLinear a b = .eq ↔ a = b := by
  unfold cmpOfLinear
  split
  · next h => simp [ne_of_lt h]
  · split
    · next h => simp [h]
    · next h => simp [h]

theorem cmpOfLinear_swap {α : Type} [LinearOrder α] (a b : α) :
    cmpOfLinear a b = (cmpOfLinear b a).swap := by
  unfold cmpOfLinear
  rcases lt_trichotomy a b with h | h | h
  · simp [h, not_lt.mpr h.le, ne_of_gt h, Ordering.swap]
  · simp [h, Ordering.swap]
  · simp [not_lt.mpr h.le, h, (ne_of_lt h).symm, Ordering.swap]

theorem cmpOfLinear_lt_iff {α : Type} [LinearOrder α] {a b : α} :
    cmpOfLinear a b = .lt ↔ a < b := by
  unfold cmpOfLinear
  split
  · next h => simp [h]
  · next h => split <;> simp [h]

theorem cmpOfLinear_lt_trans {α : Type} [LinearOrder α] {a b c : α}
    (h1 : cmpOfLinear a b = .lt) (h2 : cmpOfLinear b c = .lt) :
    cmpOfLinear a c = .lt :=
  cmpOfLinear_lt_iff.mpr (lt_trans (cmpOfLinear_lt_iff.mp h1) (cmpOfLinear_lt_iff.mp h2))

theorem cmpOfLinear_nat_ne {m n : Nat} (h : m ≠ n) : cmpOfLinear m n ≠ .eq :=
  fun hc => h (cmpOfLinear_eq_iff.mp hc)

mutual

theorem cmpV_swap (a b : SnapVal) : cmpV a b = (cmpV b a).swap := by
  cases a <;> cases b <;>
    simp only [cmpV] <;>
    first
      | rfl
      | exact cmpOfLinear_swap ..
      | exact cmpList_swap ..
      | exact cmpTable_swap ..

theorem cmpList_swap (as bs : List SnapVal) : cmpList as bs = (cmpList bs as).swap := by
  cases as with
  | nil => cases bs <;> rfl
  | cons a as =>
    cases bs with
    | nil => rfl
    | cons b bs =>
      simp only [cmpList]
      rw [cmpV_swap a b]
      cases cmpV b a <;> simp [Ordering.swap] <;> exact cmpList_swap as bs

theorem cmpTable_swap (ts us : List (String × SnapVal)) :
    cmpTable ts us = (cmpTable us ts).swap := by
  cases ts with
  | nil => cases us <;> rfl
  | cons t ts =>
    cases us with
    | nil => rfl
    | cons u us =>
      obtain ⟨k1, v1⟩ := t
      obtain ⟨k2, v2⟩ := u
      simp only [cmpTable]
      rw [cmpOfLinear_swap k1 k2]
      cases cmpOfLinear k2 k1 <;> simp [Ordering.swap] <;>
        · rw [cmpV_swap v1 v2]
          cases cmpV v2 v1 <;> simp [Ordering.swap] <;> exact cmpTable_swap ts us

end

mutual

theorem cmpV_eq_iff : (a b : SnapVal) → (cmpV a b = .eq ↔ a = b)
  | a, b => by
    cases a <;> cases b <;>
      simp only [cmpV, tagIdx] <;>
      first
        | (rename_i xs ys; rw [cmpList_eq_iff xs ys]; simp; done)
        | (rename_i xs ys; rw [cmpTable_eq_iff xs ys]; simp; done)
        | (rw [cmpOfLinear_eq_iff]; simp; done)
        | (simp; done)

theorem cmpList_eq_iff : (as bs : List SnapVal) → (cmpList as bs = .eq ↔ as = bs)
  | [], [] => by simp [cmpList]
  | [], _ :: _ => by simp [cmpList]
  | _ :: _, [] => by simp [cmpList]
  | a :: as, b :: bs => by
    simp only [cmpList]
    cases h : cmpV a b with
    | eq =>
      rw [cmpList_eq_iff as bs]
      have := (cmpV_eq_iff a b).mp h
      simp [this]
    | lt =>
      have : a ≠ b := fun he => by simp [(cmpV_eq_iff a b).mpr he] at h
      simp [this]
    | gt =>
      have : a ≠ b := fun he => by simp [(cmpV_eq_iff a b).mpr he] at h
      simp [this]

theorem cmpTable_eq_iff : (ts us : List (String × SnapVal)) → (cmpTable ts us = .eq ↔ ts = us)
  | [], [] => by simp [cmpTable]
  | [], _ :: _ => by simp [cmpTable]
  | _ :: _, [] => by simp [cmpTable]
  | (k1, v1) :: ts, (k2, v2) :: us => by
    simp only [cmpTable]
    cases hk : cmpOfLinear k1 k2 with
    | eq =>
      have hkk : k1 = k2 := cmpOfLinear_eq_iff.mp hk
      cases hv : cmpV v1 v2 with
      | eq =>
        rw [cmpTable_eq_iff ts us]
        have := (cmpV_eq_iff v1 v2).mp hv
        simp [hkk, this]
      | lt =>
        have : v1 ≠ v2 := fun he => by simp [(cmpV_eq_iff v1 v2).mpr he] at hv
        simp [this]
      | gt =>
        have : v1 ≠ v2 := fun he => by simp [(cmpV_eq_iff v1 v2).mpr he] at hv
        simp [this]
    | lt =>
      have : k1 ≠ k2 := fun he => by simp [cmpOfLinear_eq_iff.mpr he] at hk
      simp [this]
    | gt =>
      have : k1 ≠ k2 := fun he => by simp [cmpOfLinear_eq_iff.mpr he] at hk
      simp [this]

end

mutual

/-- Structural equality test on snapshot values.  The comparator cmpV also
decides equality, but its string comparisons do not reduce inside the
kernel at literal inputs, so decidable equality is taken from this parallel
boolean test instead. -/
def beqV : SnapVal → SnapVal → Bool
  | .str a, .str b => a == b
  | .int a, .int b => a == b
  | .bool a, .bool b => a == b
  | .none, .none => true
  | .tup a, .tup b => beqL a b
  | .list a, .list b => beqL a b
  | .dict a, .dict b => beqT a b
  | _, _ => false

def beqL : List SnapVal → List SnapVal → Bool
  | [], [] => true
  | a :: as, b :: bs => beqV a b && beqL as bs
  | _, _ => false

def beqT : List (String × SnapVal) → List (String × SnapVal) → Bool
  | [], [] => true
  | (k1, v1) :: as, (k2, v2) :: bs => k1 == k2 && beqV v1 v2 && beqT as bs
  | _, _ => false

end

mutual

theorem beqV_iff : (a b : SnapVal) → (beqV a b = true ↔ a = b)
  | a, b => by
    cases a <;> cases b <;>
      simp only [beqV] <;>
      first
        | (rename_i xs ys; rw [beqL_iff xs ys]; simp; done)
        | (rename_i xs ys; rw [beqT_iff xs ys]; simp; done)
        | (simp; done)

theorem beqL_iff : (as bs : List SnapVal) → (beqL as bs = true ↔ as = bs)
  | [], [] => by simp [beqL]
  | [], _ :: _ => by simp [beqL]
  | _ :: _, [] => by simp [beqL]
  | a :: as, b :: bs => by
    simp only [beqL, Bool.and_eq_true]
    rw [beqV_iff a b, beqL_iff as bs]
    simp

theorem beqT_iff : (ts us : List (String × SnapVal)) → (beqT ts us = true ↔ ts = us)
  | [], [] => by simp [beqT]
  | [], _ :: _ => by simp [beqT]
  | _ :: _, [] => by simp [beqT]
  | (k1, v1) :: ts, (k2, v2) :: us => by
    simp only [beqT, Bool.and_eq_true]
    rw [beqV_iff v1 v2, beqT_iff ts us]
    simp [and_assoc]

end

instance : DecidableEq SnapVal :=
  fun a b => decidable_of_iff (beqV a b = true) (beqV_iff a b)

theorem cmpV_refl (a : SnapVal) : cmpV a a = .eq := (cmpV_eq_iff a a).mpr rfl

theorem cmpV_tag_ne {a b : SnapVal} (h : tagIdx a ≠ tagIdx b) :
    cmpV a b = cmpOfLinear (tagIdx a) (tagIdx b) := by
  cases a <;> cases b <;> first | (exact absurd rfl h) | rfl

theorem cmpV_lt_tag_le {a b : SnapVal} (h : cmpV a b = .lt) : tagIdx a ≤ tagIdx b := by
  by_cases he : tagIdx a = tagIdx b
  · exact Nat.le_of_eq he
  · rw [cmpV_tag_ne he] at h
    exact Nat.le_of_lt (cmpOfLinear_lt_iff.mp h)

mutual

theorem cmpV_lt_trans : (a b c : SnapVal) →
    cmpV a b = .lt → cmpV b c = .lt → cmpV a c = .lt
  | a, b, c, h1, h2 => by
    rcases Nat.lt_trichotomy (tagIdx a) (tagIdx c) with hac | hac | hac
    · rw [cmpV_tag_ne (Nat.ne_of_lt hac)]
      exact cmpOfLinear_lt_iff.mpr hac
    · have hab := cmpV_lt_tag_le h1
      have hbc := cmpV_lt_tag_le h2
      have htab : tagIdx a = tagIdx b := by omega
      have htbc : tagIdx b = tagIdx c := by omega
      clear hab hbc hac
      cases a <;> cases b <;> cases c <;>
        simp [tagIdx] at htab htbc <;>
        simp only [cmpV] at h1 h2 ⊢ <;>
        first
          | exact cmpOfLinear_lt_trans h1 h2
          | (rename_i xs ys zs; exact cmpList_lt_trans xs ys zs h1 h2)
          | (rename_i xs ys zs; exact cmpTable_lt_trans xs ys zs h1 h2)
          | simp at h1
    · have hab := cmpV_lt_tag_le h1
      have hbc := cmpV_lt_tag_le h2
      omega

theorem cmpList_lt_trans : (as bs cs : List SnapVal) →
    cmpList as bs = .lt → cmpList bs cs = .lt → cmpList as cs = .lt
  | [], [], _, h1, _ => by simp [cmpList] at h1
  | [], _ :: _, [], _, h2 => by simp [cmpList] at h2
  | [], _ :: _, _ :: _, _, _ => by simp [cmpList]
  | _ :: _, [], _, h1, _ => by simp [cmpList] at h1
  | _ :: _, _ :: _, [], _, h2 => by simp [cmpList] at h2
  | a :: as, b :: bs, c :: cs, h1, h2 => by
    simp only [cmpList] at h1 h2 ⊢
    cases hab : cmpV a b with
    | gt => simp [hab] at h1
    | eq =>
      have hb : a = b := (cmpV_eq_iff a b).mp hab
      subst hb
      simp [hab] at h1
      cases hbc : cmpV a c with
      | gt => simp [hbc] at h2
      | lt => rfl
      | eq =>
        simp [hbc] at h2
        exact cmpList_lt_trans as bs cs h1 h2
    | lt =>
      simp [hab] at h1
      cases hbc : cmpV b c with
      | gt => simp [hbc] at h2
      | eq =>
        have hb : b = c := (cmpV_eq_iff b c).mp hbc
        subst hb
        simp [hab]
      | lt =>
        simp [cmpV_lt_trans a b c hab hbc]

theorem cmpTable_lt_trans : (ts us vs : List (String × SnapVal)) →
    cmpTable ts us = .lt → cmpTable us vs = .lt → cmpTable ts vs = .lt
  | [], [], _, h1, _ => by simp [cmpTable] at h1
  | [], _ :: _, [], _, h2 => by simp [cmpTable] at h2
  | [], _ :: _, _ :: _, _, _ => by simp [cmpTable]
  | _ :: _, [], _, h1, _ => by simp [cmpTable] at h1
  | _ :: _, _ :: _, [], _, h2 => by simp [cmpTable] at h2
  | (k1, v1) :: ts, (k2, v2) :: us, (k3, v3) :: vs, h1, h2 => by
    simp only [cmpTable] at h1 h2 ⊢
    cases hk12 : cmpOfLinear k1 k2 with
    | gt => simp [hk12] at h1
    | lt =>
      simp [hk12] at h1
      cases hk23 : cmpOfLinear k2 k3 with
      | gt => simp [hk23] at h2
      | lt => simp [cmpOfLinear_lt_trans hk12 hk23]
      | eq =>
        have hk : k2 = k3 := cmpOfLinear_eq_iff.mp hk23
        subst hk
        simp [hk12]
    | eq =>
      have hk : k1 = k2 := cmpOfLinear_eq_iff.mp hk12
      subst hk
      simp [hk12] at h1
      cases hk13 : cmpOfLinear k1 k3 with
      | gt => simp [hk13] at h2
      | lt => rfl
      | eq =>
        simp [hk13] at h2
        cases hv12 : cmpV v1 v2 with
        | gt => simp [hv12] at h1
        | eq =>
          have hv : v1 = v2 := (cmpV_eq_iff v1 v2).mp hv12
          subst hv
          simp [hv12] at h1
          cases hv13 : cmpV v1 v3 with
          | gt => simp [hv13] at h2
          | lt => rfl
          | eq =>
            simp [hv13] at h2
            exact cmpTable_lt_trans ts us vs h1 h2
        | lt =>
          simp [hv12] at h1
          cases hv23 : cmpV v2 v3 with
          | gt => simp [hv23] at h2
          | eq =>
            have hv : v2 = v3 := (cmpV_eq_iff v2 v3).mp hv23
            subst hv
            simp [hv12]
          | lt =>
            simp [cmpV_lt_trans v1 v2 v3 hv12 hv23]

end

/-- The order in which union member snapshots are sorted, modelling the
ascending order used by the sorted builtin in visit_union_type. -/
def leV (a b : SnapVal) : Prop := cmpV a b ≠ .gt

instance : DecidableRel leV := fun a b => instDecidableNot

theorem cmpV_gt_iff {a b : SnapVal} : cmpV a b = .gt ↔ cmpV b a = .lt := by
  rw [cmpV_swap a b]
  cases cmpV b a <;> simp [Ordering.swap]

instance : IsTotal SnapVal leV := by
  constructor
  intro a b
  cases h : cmpV a b with
  | gt =>
    right
    have : cmpV b a = .lt := cmpV_gt_iff.mp h
    simp [leV, this]
  | lt => left; simp [leV, h]
  | eq => left; simp [leV, h]

instance : IsTrans SnapVal leV := by
  constructor
  intro a b c hab hbc
  cases h1 : cmpV a b with
  | gt => exact absurd h1 hab
  | eq =>
    have : a = b := (cmpV_eq_iff a b).mp h1
    subst this
    exact hbc
  | lt =>
    cases h2 : cmpV b c with
    | gt => exact absurd h2 hbc
    | eq =>
      have : b = c := (cmpV_eq_iff b c).mp h2
      subst this
      simp [leV, h1]
    | lt => simp [leV, cmpV_lt_trans a b c h1 h2]

instance : IsAntisymm SnapVal leV := by
  constructor
  intro a b hab hba
  cases h : cmpV a b with
  | gt => exact absurd h hab
  | eq => exact (cmpV_eq_iff a b).mp h
  | lt =>
    exfalso
    exact hba (cmpV_gt_iff.mpr h)

/-- sorted set of snapshot values, as a list: models the Python expression
tuple(sorted(items)) applied to a set of snapshot values. -/
def sortSnaps (l : List SnapVal) : List SnapVal := Finset.sort leV l.toFinset

/-! ### The snapshot comparator, from compare_symbol_table_snapshots -/

/-- Qualified trigger name: the Python format string percent-s dot percent-s
applied to a prefix and a local name. -/
def qualName (pfx name : String) : String := pfx ++ "." ++ name

/-- The set of qualified names of a snapshot table, as built at the start of
compare_symbol_table_snapshots for each of the two snapshots. -/
def tableNames (pfx : String) (s : List (String × SnapVal)) : Finset String :=
  (s.map fun e => qualName pfx e.1).toFinset

/-- Python dict indexing on the association-list model of a dict. -/
def lookupTable : List (String × SnapVal) → String → Option SnapVal
  | [], _ => Option.none
  | (k, v) :: rest, name => if k = name then some v else lookupTable rest name

/-- item[0] of a snapshot item; Option.none models the IndexError or
TypeError Python would raise on a non-tuple or empty-tuple item. -/
def itemKind : SnapVal → Option SnapVal
  | .tup (k :: rest) => some k
  | _ => Option.none

/-- item[:-1] of a snapshot item. -/
def itemInit : SnapVal → Option (List SnapVal)
  | .tup elems => some elems.dropLast
  | _ => Option.none

/-- item[-1] of a snapshot item. -/
def itemLast : SnapVal → Option SnapVal
  | .tup elems => elems.getLast?
  | _ => Option.none

theorem mem_of_getLast?_eq {α : Type} : ∀ {l : List α} {a : α}, l.getLast? = some a → a ∈ l
  | [], _, h => by simp at h
  | [b], a, h => by
    simp at h
    simp [h]
  | b :: c :: l, a, h => by
    rw [List.getLast?_cons_cons] at h
    exact List.mem_cons_of_mem _ (mem_of_getLast?_eq h)

theorem sizeOf_lt_of_itemLast {item v : SnapVal} (h : itemLast item = some v) :
    sizeOf v < sizeOf item := by
  cases item <;> simp [itemLast] at h
  rename_i elems
  have hm : v ∈ elems := mem_of_getLast?_eq h
  have hs := List.sizeOf_lt_of_mem hm
  simp only [SnapVal.tup.sizeOf_spec]
  omega

mutual

/-- Return names that are different in two snapshots of a symbol table.
Mirrors compare_symbol_table_snapshots: the symmetric difference of the
qualified key sets, plus the names collected over the common keys. -/
def compare_symbol_table_snapshots (pfx : String)
    (snapshot1 snapshot2 : List (String × SnapVal)) : Finset String :=
  (tableNames pfx snapshot1 \ tableNames pfx snapshot2) ∪
    (tableNames pfx snapshot2 \ tableNames pfx snapshot1) ∪
    compareCommon pfx snapshot1 snapshot2
termination_by sizeOf snapshot1 + 1

/-- The loop over names defined in both versions: iterates the entries of the
first snapshot, skipping names absent from the second. -/
def compareCommon (pfx : String) (snapshot1 snapshot2 : List (String × SnapVal)) :
    Finset String :=
  match snapshot1 with
  | [] => ∅
  | (name, item1) :: rest =>
    (match lookupTable snapshot2 name with
     | Option.none => ∅
     | some item2 => compareItems pfx name item1 item2) ∪
      compareCommon pfx rest snapshot2
termination_by sizeOf snapshot1

/-- The body of the comparison loop for one name present in both snapshots:
different leading kind tags trigger; TypeInfo items compare their
non-final elements and recurse into the nested member dict; all other
items compare by equality. -/
def compareItems (pfx name : String) (item1 item2 : SnapVal) : Finset String :=
  if itemKind item1 ≠ itemKind item2 then {qualName pfx name}
  else if itemKind item1 = some (SnapVal.str "TypeInfo") then
    (if itemInit item1 ≠ itemInit item2 then ({qualName pfx name} : Finset String) else ∅) ∪
      (match h1 : itemLast item1, itemLast item2 with
       | some (SnapVal.dict d1), some (SnapVal.dict d2) =>
         compare_symbol_table_snapshots (qualName pfx name) d1 d2
       | _, _ => ∅)
  else if item1 ≠ item2 then {qualName pfx name} else ∅
termination_by sizeOf item1
decreasing_by
  have hlt := sizeOf_lt_of_itemLast h1
  simp only [SnapVal.dict.sizeOf_spec] at hlt
  omega

end

/-! ### Dict well-formedness

Python dicts cannot contain duplicate keys, so every snapshot table obtained
from a Python dict has pairwise distinct keys, recursively through the
nested class member dicts.  The association-list model makes this a side
condition. -/

mutual

/-- Every dict nested in the value has pairwise distinct keys. -/
def nodupDicts : SnapVal → Bool
  | .str _ => true
  | .int _ => true
  | .bool _ => true
  | .none => true
  | .tup es => nodupDictsList es
  | .list es => nodupDictsList es
  | .dict entries => decide ((entries.map Prod.fst).Nodup) && wfTableVals entries

def nodupDictsList : List SnapVal → Bool
  | [] => true
  | v :: vs => nodupDicts v && nodupDictsList vs

def wfTableVals : List (String × SnapVal) → Bool
  | [] => true
  | (_, v) :: rest => nodupDicts v && wfTableVals rest

end

/-- A snapshot table has pairwise distinct keys, recursively. -/
def wfTable (entries : List (String × SnapVal)) : Bool :=
  decide ((entries.map Prod.fst).Nodup) && wfTableVals entries

theorem nodupDicts_dict_eq (entries : List (String × SnapVal)) :
    nodupDicts (SnapVal.dict entries) = wfTable entries := rfl

theorem nodupDicts_of_mem_list {es : List SnapVal} {v : SnapVal}
    (h : nodupDictsList es = true) (hm : v ∈ es) : nodupDicts v = true := by
  induction es with
  | nil => simp at hm
  | cons w ws ih =>
    simp only [nodupDictsList, Bool.and_eq_true] at h
    rcases List.mem_cons.mp hm with rfl | hm
    · exact h.1
    · exact ih h.2 hm

theorem nodupDicts_of_mem_table {s : List (String × SnapVal)} {n : String} {v : SnapVal}
    (h : wfTableVals s = true) (hm : (n, v) ∈ s) : nodupDicts v = true := by
  induction s with
  | nil => simp at hm
  | cons e rest ih =>
    obtain ⟨k, w⟩ := e
    simp only [wfTableVals, Bool.and_eq_true] at h
    rcases List.mem_cons.mp hm with he | hm
    · cases he
      exact h.1
    · exact ih h.2 hm

theorem lookupTable_mem {s : List (String × SnapVal)} {n : String} {v : SnapVal}
    (h : lookupTable s n = some v) : (n, v) ∈ s := by
  induction s with
  | nil => simp [lookupTable] at h
  | cons e rest ih =>
    obtain ⟨k, w⟩ := e
    simp only [lookupTable] at h
    split at h
    · next hk =>
      cases h
      subst hk
      exact List.mem_cons_self _ _
    · exact List.mem_cons_of_mem _ (ih h)

theorem mem_lookupTable {s : List (String × SnapVal)} {n : String} {v : SnapVal}
    (hnd : (s.map Prod.fst).Nodup) (h : (n, v) ∈ s) : lookupTable s n = some v := by
  induction s with
  | nil => simp at h
  | cons e rest ih =>
    obtain ⟨k, w⟩ := e
    simp only [List.map_cons, List.nodup_cons] at hnd
    rcases List.mem_cons.mp h with he | hm
    · cases he
      simp [lookupTable]
    · have hk : k ≠ n := by
        intro hkn
        exact hnd.1 (List.mem_map.mpr ⟨(n, v), hm, hkn.symm⟩)
      simp only [lookupTable, if_neg hk]
      exact ih hnd.2 hm

theorem lookupTable_isNone {s : List (String × SnapVal)} {n : String}
    (h : ∀ v, (n, v) ∉ s) : lookupTable s n = Option.none := by
  induction s with
  | nil => rfl
  | cons e rest ih =>
    obtain ⟨k, w⟩ := e
    have hk : k ≠ n := fun he => h w (he ▸ List.mem_cons_self _ _)
    simp only [lookupTable, if_neg hk]
    exact ih fun v hv => h v (List.mem_cons_of_mem _ hv)

theorem mem_compareCommon {pfx : String} {s1 s2 : List (String × SnapVal)} {x : String} :
    x ∈ compareCommon pfx s1 s2 ↔
      ∃ n v1 v2, (n, v1) ∈ s1 ∧ lookupTable s2 n = some v2 ∧
        x ∈ compareItems pfx n v1 v2 := by
  induction s1 with
  | nil => simp [compareCommon]
  | cons e rest ih =>
    obtain ⟨n1, w⟩ := e
    rw [compareCommon]
    rw [Finset.mem_union]
    constructor
    · intro hx
      rcases hx with hx | hx
      · cases hl : lookupTable s2 n1 with
        | none => rw [hl] at hx; simp at hx
        | some v2 =>
          rw [hl] at hx
          simp only at hx
          exact ⟨n1, w, v2, List.mem_cons_self _ _, hl, hx⟩
      · obtain ⟨n, v1, v2, hm, hl, hi⟩ := ih.mp hx
        exact ⟨n, v1, v2, List.mem_cons_of_mem _ hm, hl, hi⟩
    · rintro ⟨n, v1, v2, hm, hl, hi⟩
      rcases List.mem_cons.mp hm with he | hm
      · cases he
        left
        rw [hl]
        exact hi
      · right
        exact ih.mpr ⟨n, v1, v2, hm, hl, hi⟩


/-! ### Unfolding lemmas for compareItems, one per branch of the source -/

theorem compareItems_kind_ne {pfx name : String} {item1 item2 : SnapVal}
    (hk : itemKind item1 ≠ itemKind item2) :
    compareItems pfx name item1 item2 = {qualName pfx name} := by
  rw [compareItems, if_pos hk]

theorem compareItems_shallow {pfx name : String} {item1 item2 : SnapVal}
    (hk : ¬itemKind item1 ≠ itemKind item2)
    (hti : itemKind item1 ≠ some (SnapVal.str "TypeInfo")) :
    compareItems pfx name item1 item2 =
      if item1 ≠ item2 then {qualName pfx name} else ∅ := by
  rw [compareItems, if_neg hk, if_neg hti]

theorem compareItems_typeinfo {pfx name : String} {item1 item2 : SnapVal}
    {d1 d2 : List (String × SnapVal)}
    (hk : ¬itemKind item1 ≠ itemKind item2)
    (hti : itemKind item1 = some (SnapVal.str "TypeInfo"))
    (hl1 : itemLast item1 = some (SnapVal.dict d1))
    (hl2 : itemLast item2 = some (SnapVal.dict d2)) :
    compareItems pfx name item1 item2 =
      (if itemInit item1 ≠ itemInit item2 then ({qualName pfx name} : Finset String) else ∅) ∪
        compare_symbol_table_snapshots (qualName pfx name) d1 d2 := by
  rw [compareItems, if_neg hk, if_pos hti]
  congr 1
  split
  · next e1 e2 heq1 heq2 =>
    rw [hl1] at heq1
    rw [hl2] at heq2
    cases heq1
    cases heq2
    rfl
  · next hfn =>
    exact (hfn d1 d2 hl1 hl2).elim

theorem compareItems_typeinfo_nodicts {pfx name : String} {item1 item2 : SnapVal}
    (hk : ¬itemKind item1 ≠ itemKind item2)
    (hti : itemKind item1 = some (SnapVal.str "TypeInfo"))
    (hnod : ∀ e1 e2, itemLast item1 = some (SnapVal.dict e1) →
      itemLast item2 = some (SnapVal.dict e2) → False) :
    compareItems pfx name item1 item2 =
      if itemInit item1 ≠ itemInit item2 then {qualName pfx name} else ∅ := by
  rw [compareItems, if_neg hk, if_pos hti, Finset.union_comm]
  split
  · next e1 e2 heq1 heq2 =>
    exact (hnod e1 e2 heq1 heq2).elim
  · exact Finset.empty_union _

mutual

theorem compareItems_refl : (v : SnapVal) → (pfx name : String) →
    nodupDicts v = true → compareItems pfx name v v = ∅
  | v, pfx, name, hnd => by
    by_cases hti : itemKind v = some (SnapVal.str "TypeInfo")
    case neg =>
      rw [compareItems_shallow (by simp) hti]
      simp
    case pos =>
      cases hl : itemLast v with
      | none =>
        rw [compareItems_typeinfo_nodicts (by simp) hti
          (fun e1 e2 h1 h2 => by rw [hl] at h1; simp at h1)]
        simp
      | some w =>
        cases w <;>
          first
            | (rw [compareItems_typeinfo (by simp) hti hl hl]
               rename_i d
               have hwf : wfTable d = true := by
                 rw [← nodupDicts_dict_eq]
                 cases v <;> simp [itemLast] at hl
                 rename_i elems
                 exact nodupDicts_of_mem_list (by simpa [nodupDicts] using hnd)
                   (mem_of_getLast?_eq hl)
               rw [compare_refl_of d (qualName pfx name) hwf]
               simp)
            | (rw [compareItems_typeinfo_nodicts (by simp) hti
                 (fun e1 e2 h1 h2 => by rw [hl] at h1; simp at h1)]
               simp)
termination_by v => sizeOf v
decreasing_by
  have hlt := sizeOf_lt_of_itemLast hl
  simp only [SnapVal.dict.sizeOf_spec] at hlt
  omega

theorem compareCommon_refl_of : (s1 : List (String × SnapVal)) → (pfx : String) →
    (s2 : List (String × SnapVal)) →
    (∀ p ∈ s1, lookupTable s2 p.1 = Option.none ∨
      (lookupTable s2 p.1 = some p.2 ∧ nodupDicts p.2 = true)) →
    compareCommon pfx s1 s2 = ∅
  | [], _, _, _ => by rw [compareCommon]
  | (n, v) :: rest, pfx, s2, h => by
    rw [compareCommon]
    have hrest := compareCommon_refl_of rest pfx s2 fun p hp => h p (List.mem_cons_of_mem _ hp)
    rcases h (n, v) (List.mem_cons_self _ _) with hl | ⟨hl, hnv⟩
    · rw [hl, hrest]
      simp
    · rw [hl, hrest]
      simp [compareItems_refl v pfx n hnv]
termination_by s1 => sizeOf s1

theorem compare_refl_of : (s : List (String × SnapVal)) → (pfx : String) →
    wfTable s = true → compare_symbol_table_snapshots pfx s s = ∅
  | s, pfx, hwf => by
    have hnd : (s.map Prod.fst).Nodup := by
      simp only [wfTable, Bool.and_eq_true, decide_eq_true_eq] at hwf
      exact hwf.1
    have hvals : wfTableVals s = true := by
      simp only [wfTable, Bool.and_eq_true] at hwf
      exact hwf.2
    have hcc := compareCommon_refl_of s pfx s (fun p hp => by
      right
      obtain ⟨n, v⟩ := p
      exact ⟨mem_lookupTable hnd hp, nodupDicts_of_mem_table hvals hp⟩)
    rw [compare_symbol_table_snapshots, hcc, Finset.sdiff_self]
    simp
termination_by s => sizeOf s + 1

end

theorem wfTable_nodupKeys {s : List (String × SnapVal)} (h : wfTable s = true) :
    (s.map Prod.fst).Nodup := by
  simp only [wfTable, Bool.and_eq_true, decide_eq_true_eq] at h
  exact h.1

theorem wfTable_vals {s : List (String × SnapVal)} (h : wfTable s = true) :
    wfTableVals s = true := by
  simp only [wfTable, Bool.and_eq_true] at h
  exact h.2

theorem sizeOf_val_of_mem {s : List (String × SnapVal)} {n : String} {v : SnapVal}
    (h : (n, v) ∈ s) : sizeOf v < sizeOf s := by
  have hlt := List.sizeOf_lt_of_mem h
  simp only [Prod.mk.sizeOf_spec] at hlt
  omega

theorem wfTable_of_itemLast {v : SnapVal} {d : List (String × SnapVal)}
    (hnd : nodupDicts v = true) (hl : itemLast v = some (SnapVal.dict d)) :
    wfTable d = true := by
  rw [← nodupDicts_dict_eq]
  cases v <;> simp [itemLast] at hl
  rename_i elems
  exact nodupDicts_of_mem_list (by simpa [nodupDicts] using hnd) (mem_of_getLast?_eq hl)

mutual

theorem compareItems_symm : (v1 v2 : SnapVal) → (pfx name : String) →
    nodupDicts v1 = true → nodupDicts v2 = true →
    compareItems pfx name v1 v2 = compareItems pfx name v2 v1
  | v1, v2, pfx, name, hn1, hn2 => by
    by_cases hk : itemKind v1 = itemKind v2
    case neg =>
      rw [compareItems_kind_ne hk, compareItems_kind_ne (Ne.symm hk)]
    case pos =>
      by_cases hti : itemKind v1 = some (SnapVal.str "TypeInfo")
      case pos =>
        have hti2 : itemKind v2 = some (SnapVal.str "TypeInfo") := hk ▸ hti
        by_cases hdd : ∃ d1 d2, itemLast v1 = some (SnapVal.dict d1) ∧
          itemLast v2 = some (SnapVal.dict d2)
        · obtain ⟨d1, d2, hl1, hl2⟩ := hdd
          rw [compareItems_typeinfo (by simp [hk]) hti hl1 hl2,
            compareItems_typeinfo (by simp [hk]) hti2 hl2 hl1]
          have hw1 : wfTable d1 = true := wfTable_of_itemLast hn1 hl1
          have hw2 : wfTable d2 = true := wfTable_of_itemLast hn2 hl2
          rw [compare_symm d1 d2 (qualName pfx name) hw1 hw2]
          congr 1
          by_cases hi : itemInit v1 = itemInit v2
          · simp [hi]
          · simp [hi, Ne.symm hi]
        · rw [compareItems_typeinfo_nodicts (by simp [hk]) hti
              (fun e1 e2 a b => hdd ⟨e1, e2, a, b⟩),
            compareItems_typeinfo_nodicts (by simp [hk]) hti2
              (fun e1 e2 a b => hdd ⟨e2, e1, b, a⟩)]
          by_cases hi : itemInit v1 = itemInit v2
          · simp [hi]
          · simp [hi, Ne.symm hi]
      case neg =>
        have hti2 : itemKind v2 ≠ some (SnapVal.str "TypeInfo") := hk ▸ hti
        rw [compareItems_shallow (by simp [hk]) hti,
          compareItems_shallow (by simp [hk]) hti2]
        by_cases he : v1 = v2
        · simp [he]
        · simp [he, Ne.symm he]
termination_by v1 v2 => sizeOf v1 + sizeOf v2
decreasing_by
  have b1 := sizeOf_lt_of_itemLast hl1
  have b2 := sizeOf_lt_of_itemLast hl2
  simp only [SnapVal.dict.sizeOf_spec] at b1 b2
  omega

theorem compareCommon_symm : (s1 s2 : List (String × SnapVal)) → (pfx : String) →
    wfTable s1 = true → wfTable s2 = true →
    compareCommon pfx s1 s2 = compareCommon pfx s2 s1
  | s1, s2, pfx, hw1, hw2 => by
    ext x
    rw [mem_compareCommon, mem_compareCommon]
    constructor
    · rintro ⟨n, va, vb, hm, hl, hx⟩
      refine ⟨n, vb, va, lookupTable_mem hl, mem_lookupTable (wfTable_nodupKeys hw1) hm, ?_⟩
      rw [← compareItems_symm va vb pfx n
        (nodupDicts_of_mem_table (wfTable_vals hw1) hm)
        (nodupDicts_of_mem_table (wfTable_vals hw2) (lookupTable_mem hl))]
      exact hx
    · rintro ⟨n, va, vb, hm, hl, hx⟩
      refine ⟨n, vb, va, lookupTable_mem hl, mem_lookupTable (wfTable_nodupKeys hw2) hm, ?_⟩
      rw [← compareItems_symm va vb pfx n
        (nodupDicts_of_mem_table (wfTable_vals hw2) hm)
        (nodupDicts_of_mem_table (wfTable_vals hw1) (lookupTable_mem hl))]
      exact hx
termination_by s1 s2 => sizeOf s1 + sizeOf s2 + 1
decreasing_by
  all_goals
    (have a1 := sizeOf_val_of_mem hm
     have a2 := sizeOf_val_of_mem (lookupTable_mem hl)
     omega)

theorem compare_symm : (s1 s2 : List (String × SnapVal)) → (pfx : String) →
    wfTable s1 = true → wfTable s2 = true →
    compare_symbol_table_snapshots pfx s1 s2 = compare_symbol_table_snapshots pfx s2 s1
  | s1, s2, pfx, hw1, hw2 => by
    rw [compare_symbol_table_snapshots, compare_symbol_table_snapshots]
    rw [compareCommon_symm s1 s2 pfx hw1 hw2]
    congr 1
    exact Finset.union_comm _ _
termination_by s1 s2 => sizeOf s1 + sizeOf s2 + 2

end

theorem qualName_assoc (pfx n t : String) :
    qualName (qualName pfx n) t = qualName pfx (n ++ "." ++ t) := by
  simp [qualName, String.append_assoc]

theorem qualName_inj {pfx a b : String} (h : qualName pfx a = qualName pfx b) : a = b := by
  simp only [qualName, String.append_assoc] at h
  have h2 := congrArg String.data h
  simp only [String.data_append] at h2
  exact String.ext (List.append_cancel_left (List.append_cancel_left h2))

theorem qualName_ne_base (pfx t : String) : qualName pfx t ≠ pfx := by
  intro h
  have hlen := congrArg String.length h
  have hdot : ("." : String).length = 1 := rfl
  simp only [qualName, String.length_append, hdot] at hlen
  omega

theorem mem_tableNames {pfx : String} {s : List (String × SnapVal)} {x : String} :
    x ∈ tableNames pfx s ↔ ∃ p ∈ s, x = qualName pfx p.1 := by
  simp only [tableNames, List.mem_toFinset, List.mem_map]
  constructor
  · rintro ⟨p, hp, rfl⟩
    exact ⟨p, hp, rfl⟩
  · rintro ⟨p, hp, rfl⟩
    exact ⟨p, hp, rfl⟩

mutual

theorem compareItems_prefix_ex : (v1 v2 : SnapVal) → (pfx name x : String) →
    x ∈ compareItems pfx name v1 v2 → ∃ t, x = qualName pfx t
  | v1, v2, pfx, name, x, hx => by
    by_cases hk : itemKind v1 = itemKind v2
    case neg =>
      rw [compareItems_kind_ne hk] at hx
      exact ⟨name, Finset.mem_singleton.mp hx⟩
    case pos =>
      by_cases hti : itemKind v1 = some (SnapVal.str "TypeInfo")
      case pos =>
        by_cases hdd : ∃ d1 d2, itemLast v1 = some (SnapVal.dict d1) ∧
          itemLast v2 = some (SnapVal.dict d2)
        · obtain ⟨d1, d2, hl1, hl2⟩ := hdd
          rw [compareItems_typeinfo (by simp [hk]) hti hl1 hl2] at hx
          rcases Finset.mem_union.mp hx with hx | hx
          · refine ⟨name, ?_⟩
            by_cases hi : itemInit v1 = itemInit v2
            · simp [hi] at hx
            · rw [if_pos hi] at hx
              exact Finset.mem_singleton.mp hx
          · obtain ⟨t, ht⟩ := compare_prefix_ex d1 d2 (qualName pfx name) x hx
            exact ⟨name ++ "." ++ t, by rw [ht, qualName_assoc]⟩
        · rw [compareItems_typeinfo_nodicts (by simp [hk]) hti
            (fun e1 e2 a b => hdd ⟨e1, e2, a, b⟩)] at hx
          refine ⟨name, ?_⟩
          by_cases hi : itemInit v1 = itemInit v2
          · simp [hi] at hx
          · rw [if_pos hi] at hx
            exact Finset.mem_singleton.mp hx
      case neg =>
        rw [compareItems_shallow (by simp [hk]) hti] at hx
        refine ⟨name, ?_⟩
        by_cases he : v1 = v2
        · simp [he] at hx
        · rw [if_pos he] at hx
          exact Finset.mem_singleton.mp hx
termination_by v1 v2 => sizeOf v1 + sizeOf v2
decreasing_by
  have b1 := sizeOf_lt_of_itemLast hl1
  have b2 := sizeOf_lt_of_itemLast hl2
  simp only [SnapVal.dict.sizeOf_spec] at b1 b2
  omega

theorem compareCommon_prefix_ex : (s1 s2 : List (String × SnapVal)) → (pfx x : String) →
    x ∈ compareCommon pfx s1 s2 → ∃ t, x = qualName pfx t
  | s1, s2, pfx, x, hx => by
    obtain ⟨n, v1, v2, hm, hl, hi⟩ := mem_compareCommon.mp hx
    exact compareItems_prefix_ex v1 v2 pfx n x hi
termination_by s1 s2 => sizeOf s1 + sizeOf s2 + 1
decreasing_by
  have a1 := sizeOf_val_of_mem hm
  have a2 := sizeOf_val_of_mem (lookupTable_mem hl)
  omega

theorem compare_prefix_ex : (s1 s2 : List (String × SnapVal)) → (pfx x : String) →
    x ∈ compare_symbol_table_snapshots pfx s1 s2 → ∃ t, x = qualName pfx t
  | s1, s2, pfx, x, hx => by
    rw [compare_symbol_table_snapshots] at hx
    rcases Finset.mem_union.mp hx with hx | hx
    · rcases Finset.mem_union.mp hx with hx | hx
      · obtain ⟨p, _, ht⟩ := mem_tableNames.mp (Finset.mem_sdiff.mp hx).1
        exact ⟨p.1, ht⟩
      · obtain ⟨p, _, ht⟩ := mem_tableNames.mp (Finset.mem_sdiff.mp hx).1
        exact ⟨p.1, ht⟩
    · exact compareCommon_prefix_ex s1 s2 pfx x hx
termination_by s1 s2 => sizeOf s1 + sizeOf s2 + 2

end

/-- Restatement of compareItems with a non-dependent match, used to evaluate
the comparator on concrete snapshots. -/
theorem compareItems_eq (pfx name : String) (item1 item2 : SnapVal) :
    compareItems pfx name item1 item2 =
      if itemKind item1 ≠ itemKind item2 then {qualName pfx name}
      else if itemKind item1 = some (SnapVal.str "TypeInfo") then
        (if itemInit item1 ≠ itemInit item2 then ({qualName pfx name} : Finset String) else ∅) ∪
          (match itemLast item1, itemLast item2 with
           | some (SnapVal.dict d1), some (SnapVal.dict d2) =>
             compare_symbol_table_snapshots (qualName pfx name) d1 d2
           | _, _ => ∅)
      else if item1 ≠ item2 then {qualName pfx name} else ∅ := by
  by_cases hk : itemKind item1 = itemKind item2
  case neg =>
    rw [compareItems_kind_ne hk, if_pos hk]
  case pos =>
    rw [if_neg (by simp [hk])]
    by_cases hti : itemKind item1 = some (SnapVal.str "TypeInfo")
    case pos =>
      rw [if_pos hti]
      by_cases hdd : ∃ d1 d2, itemLast item1 = some (SnapVal.dict d1) ∧
        itemLast item2 = some (SnapVal.dict d2)
      · obtain ⟨d1, d2, hl1, hl2⟩ := hdd
        rw [compareItems_typeinfo (by simp [hk]) hti hl1 hl2]
        congr 1
        rw [hl1, hl2]
      · have hnod : ∀ e1 e2, itemLast item1 = some (SnapVal.dict e1) →
            itemLast item2 = some (SnapVal.dict e2) → False :=
          fun e1 e2 a b => hdd ⟨e1, e2, a, b⟩
        rw [compareItems_typeinfo_nodicts (by simp [hk]) hti hnod]
        have hm : (match itemLast item1, itemLast item2 with
            | some (SnapVal.dict d1), some (SnapVal.dict d2) =>
              compare_symbol_table_snapshots (qualName pfx name) d1 d2
            | _, _ => (∅ : Finset String)) = ∅ := by
          cases h1 : itemLast item1 with
          | none => rfl
          | some w =>
            cases w <;> try rfl
            rename_i e1
            cases h2 : itemLast item2 with
            | none => rfl
            | some u =>
              cases u <;> try rfl
              rename_i e2
              exact (hnod e1 e2 h1 h2).elim
        rw [hm, Finset.union_empty]
    case neg =>
      rw [compareItems_shallow (by simp [hk]) hti, if_neg hti]

/-! ### Claims C1, C9, C10 about the comparator -/

/-- C1: Reflexivity of the comparator: for every symbol-table snapshot S
(with the duplicate-free dict keys every Python dict has) and every name
prefix p, compare_symbol_table_snapshots p S S returns the empty set:
diffing a snapshot of any table against itself yields no triggers. -/
theorem c1_compare_reflexive (pfx : String) (S : List (String × SnapVal))
    (h : wfTable S = true) : compare_symbol_table_snapshots pfx S S = ∅ :=
  compare_refl_of S pfx h

theorem c1_compare_reflexive_witness :
    wfTable [("f", SnapVal.tup [SnapVal.str "Func", SnapVal.none]),
      ("C", SnapVal.tup [SnapVal.str "TypeInfo", SnapVal.none, SnapVal.none,
        SnapVal.dict [("m", SnapVal.tup [SnapVal.str "Var", SnapVal.none])]])] = true ∧
    compare_symbol_table_snapshots "mod"
      [("f", SnapVal.tup [SnapVal.str "Func", SnapVal.none]),
        ("C", SnapVal.tup [SnapVal.str "TypeInfo", SnapVal.none, SnapVal.none,
          SnapVal.dict [("m", SnapVal.tup [SnapVal.str "Var", SnapVal.none])]])]
      [("f", SnapVal.tup [SnapVal.str "Func", SnapVal.none]),
        ("C", SnapVal.tup [SnapVal.str "TypeInfo", SnapVal.none, SnapVal.none,
          SnapVal.dict [("m", SnapVal.tup [SnapVal.str "Var", SnapVal.none])]])] = ∅ :=
  ⟨by decide, c1_compare_reflexive "mod" _ (by decide)⟩

/-- C9: Symmetry of the comparator: for every name prefix p and every pair
of snapshot tables S1, S2 (with duplicate-free dict keys, as in every
Python dict), compare_symbol_table_snapshots p S1 S2 equals
compare_symbol_table_snapshots p S2 S1. -/
theorem c9_compare_symmetric (pfx : String) (S1 S2 : List (String × SnapVal))
    (h1 : wfTable S1 = true) (h2 : wfTable S2 = true) :
    compare_symbol_table_snapshots pfx S1 S2 = compare_symbol_table_snapshots pfx S2 S1 :=
  compare_symm S1 S2 pfx h1 h2

theorem c9_compare_symmetric_witness :
    wfTable [("f", SnapVal.tup [SnapVal.str "Func", SnapVal.bool true])] = true ∧
    wfTable [("g", SnapVal.tup [SnapVal.str "Var", SnapVal.none])] = true ∧
    compare_symbol_table_snapshots "mod"
        [("f", SnapVal.tup [SnapVal.str "Func", SnapVal.bool true])]
        [("g", SnapVal.tup [SnapVal.str "Var", SnapVal.none])] =
      compare_symbol_table_snapshots "mod"
        [("g", SnapVal.tup [SnapVal.str "Var", SnapVal.none])]
        [("f", SnapVal.tup [SnapVal.str "Func", SnapVal.bool true])] :=
  ⟨by decide, by decide, c9_compare_symmetric "mod" _ _ (by decide) (by decide)⟩

/-- C10: Trigger-name prefix invariant: every string in the set returned by
compare_symbol_table_snapshots name_prefix S1 S2 begins with the name
prefix followed by a dot, including the names produced by recursion into
nested class snapshots. -/
theorem c10_trigger_prefix_invariant (pfx : String) (S1 S2 : List (String × SnapVal))
    (x : String) (hx : x ∈ compare_symbol_table_snapshots pfx S1 S2) :
    ∃ rest, x = pfx ++ "." ++ rest :=
  compare_prefix_ex S1 S2 pfx x hx

theorem c10_trigger_prefix_invariant_witness :
    "mod.C.m" ∈ compare_symbol_table_snapshots "mod"
        [("C", SnapVal.tup [SnapVal.str "TypeInfo", SnapVal.none, SnapVal.none,
          SnapVal.dict [("m", SnapVal.tup [SnapVal.str "Var", SnapVal.none])]])]
        [("C", SnapVal.tup [SnapVal.str "TypeInfo", SnapVal.none, SnapVal.none,
          SnapVal.dict [("m", SnapVal.tup [SnapVal.str "Var", SnapVal.int 3])]])] ∧
    ∃ rest, "mod.C.m" = "mod" ++ "." ++ rest := by
  have hmem : "mod.C.m" ∈ compare_symbol_table_snapshots "mod"
      [("C", SnapVal.tup [SnapVal.str "TypeInfo", SnapVal.none, SnapVal.none,
        SnapVal.dict [("m", SnapVal.tup [SnapVal.str "Var", SnapVal.none])]])]
      [("C", SnapVal.tup [SnapVal.str "TypeInfo", SnapVal.none, SnapVal.none,
        SnapVal.dict [("m", SnapVal.tup [SnapVal.str "Var", SnapVal.int 3])]])] := by
    simp [compare_symbol_table_snapshots, compareCommon, compareItems_eq, lookupTable,
      tableNames, qualName, itemKind, itemInit, itemLast,
      List.getLast?_cons_cons, List.getLast?_singleton]
  exact ⟨hmem, c10_trigger_prefix_invariant "mod" _ _ "mod.C.m" hmem⟩

theorem lookupTable_append_left {s t : List (String × SnapVal)} {n : String} {v : SnapVal}
    (h : lookupTable s n = some v) : lookupTable (s ++ t) n = some v := by
  induction s with
  | nil => simp [lookupTable] at h
  | cons e rest ih =>
    obtain ⟨k, w⟩ := e
    simp only [lookupTable, List.cons_append] at h ⊢
    split at h
    · next hk => rw [if_pos hk]; exact h
    · next hk => rw [if_neg hk]; exact ih h

theorem lookupTable_not_mem_keys {s : List (String × SnapVal)} {n : String}
    (h : n ∉ s.map Prod.fst) : lookupTable s n = Option.none := by
  refine lookupTable_isNone fun v hv => h ?_
  exact List.mem_map.mpr ⟨(n, v), hv, rfl⟩

theorem tableNames_append_single (pfx x : String) (S : List (String × SnapVal)) (d : SnapVal) :
    tableNames pfx (S ++ [(x, d)]) = tableNames pfx S ∪ {qualName pfx x} := by
  simp [tableNames, List.toFinset_append]

theorem qualName_not_mem_tableNames {pfx x : String} {S : List (String × SnapVal)}
    (hx : x ∉ S.map Prod.fst) : qualName pfx x ∉ tableNames pfx S := by
  intro hmem
  obtain ⟨p, hp, he⟩ := mem_tableNames.mp hmem
  exact hx (List.mem_map.mpr ⟨p, hp, (qualName_inj he).symm⟩)

/-- C5: Addition (and symmetrically removal) of a single entry: for every
snapshot table S with duplicate-free keys, name x not in S, and snapshot
value d, comparing S with S extended by the binding of x to d returns
exactly the singleton containing the qualified name of x, in either
argument order: names present in only one snapshot always trigger, and
identical common entries contribute nothing. -/
theorem c5_single_addition_removal (pfx x : String) (S : List (String × SnapVal)) (d : SnapVal)
    (hwf : wfTable S = true) (hx : x ∉ S.map Prod.fst) :
    compare_symbol_table_snapshots pfx S (S ++ [(x, d)]) = {qualName pfx x} ∧
      compare_symbol_table_snapshots pfx (S ++ [(x, d)]) S = {qualName pfx x} := by
  have hq : qualName pfx x ∉ tableNames pfx S := qualName_not_mem_tableNames hx
  have hcommon1 : compareCommon pfx S (S ++ [(x, d)]) = ∅ := by
    refine compareCommon_refl_of S pfx (S ++ [(x, d)]) fun p hp => Or.inr ?_
    obtain ⟨n, v⟩ := p
    exact ⟨lookupTable_append_left (mem_lookupTable (wfTable_nodupKeys hwf) hp),
      nodupDicts_of_mem_table (wfTable_vals hwf) hp⟩
  have hcommon2 : compareCommon pfx (S ++ [(x, d)]) S = ∅ := by
    refine compareCommon_refl_of (S ++ [(x, d)]) pfx S fun p hp => ?_
    obtain ⟨n, v⟩ := p
    rcases List.mem_append.mp hp with hmem | hmem
    · exact Or.inr ⟨mem_lookupTable (wfTable_nodupKeys hwf) hmem,
        nodupDicts_of_mem_table (wfTable_vals hwf) hmem⟩
    · left
      rcases List.mem_singleton.mp hmem with he
      cases he
      exact lookupTable_not_mem_keys hx
  constructor
  · rw [compare_symbol_table_snapshots, hcommon1, tableNames_append_single]
    ext y
    by_cases hy : y = qualName pfx x
    · subst hy
      simp [hq]
    · simp [hy]
  · rw [compare_symbol_table_snapshots, hcommon2, tableNames_append_single]
    ext y
    by_cases hy : y = qualName pfx x
    · subst hy
      simp [hq]
    · simp [hy]

theorem c5_single_addition_removal_witness :
    wfTable [("f", SnapVal.tup [SnapVal.str "Func", SnapVal.none])] = true ∧
    "x" ∉ ([("f", SnapVal.tup [SnapVal.str "Func", SnapVal.none])].map Prod.fst) ∧
    compare_symbol_table_snapshots "mod"
        [("f", SnapVal.tup [SnapVal.str "Func", SnapVal.none])]
        ([("f", SnapVal.tup [SnapVal.str "Func", SnapVal.none])] ++
          [("x", SnapVal.tup [SnapVal.str "Var", SnapVal.none])]) = {qualName "mod" "x"} ∧
    compare_symbol_table_snapshots "mod"
        ([("f", SnapVal.tup [SnapVal.str "Func", SnapVal.none])] ++
          [("x", SnapVal.tup [SnapVal.str "Var", SnapVal.none])])
        [("f", SnapVal.tup [SnapVal.str "Func", SnapVal.none])] = {qualName "mod" "x"} := by
  have h := c5_single_addition_removal "mod" "x"
    [("f", SnapVal.tup [SnapVal.str "Func", SnapVal.none])]
    (SnapVal.tup [SnapVal.str "Var", SnapVal.none]) (by decide) (by decide)
  exact ⟨by decide, by decide, h.1, h.2⟩

/-- Comparing two single-class tables whose class entries agree on everything
except the nested member dict reduces to comparing the member dicts under
the qualified class name. -/
theorem compare_single_class (pfx C : String) (common attrs : SnapVal)
    (M1 M2 : List (String × SnapVal)) :
    compare_symbol_table_snapshots pfx
        [(C, SnapVal.tup [SnapVal.str "TypeInfo", common, attrs, SnapVal.dict M1])]
        [(C, SnapVal.tup [SnapVal.str "TypeInfo", common, attrs, SnapVal.dict M2])] =
      compare_symbol_table_snapshots (qualName pfx C) M1 M2 := by
  rw [compare_symbol_table_snapshots, compareCommon, compareCommon]
  have hl : lookupTable
      [(C, SnapVal.tup [SnapVal.str "TypeInfo", common, attrs, SnapVal.dict M2])] C =
      some (SnapVal.tup [SnapVal.str "TypeInfo", common, attrs, SnapVal.dict M2]) := by
    simp [lookupTable]
  simp only [hl]
  have hti1 : itemKind (SnapVal.tup [SnapVal.str "TypeInfo", common, attrs,
      SnapVal.dict M1]) = some (SnapVal.str "TypeInfo") := rfl
  have hl1 : itemLast (SnapVal.tup [SnapVal.str "TypeInfo", common, attrs,
      SnapVal.dict M1]) = some (SnapVal.dict M1) := rfl
  have hl2 : itemLast (SnapVal.tup [SnapVal.str "TypeInfo", common, attrs,
      SnapVal.dict M2]) = some (SnapVal.dict M2) := rfl
  rw [compareItems_typeinfo (by simp [itemKind]) hti1 hl1 hl2]
  have hinit : ¬itemInit
      (SnapVal.tup [SnapVal.str "TypeInfo", common, attrs, SnapVal.dict M1]) ≠ itemInit
      (SnapVal.tup [SnapVal.str "TypeInfo", common, attrs, SnapVal.dict M2]) := by
    simp [itemInit]
  rw [if_neg hinit]
  simp [tableNames]

/-- C2 (amended): take two snapshots of a class C that agree on the common
triple and the major-attributes tuple and whose member tables differ in
exactly one member m.  Provided the differing member snapshots are not both
class (TypeInfo) snapshots agreeing on everything outside their nested
member dicts (in that nested-class case the comparator descends and only
deeper qualified names are produced), the result contains the qualified
member name and never the class name itself.  Conversely a change confined
to the major attributes yields exactly the class name and no member name. -/
theorem c2_member_vs_class_isolation (pfx C m : String)
    (common attrs attrs1 attrs2 d1 d2 : SnapVal)
    (A B M : List (String × SnapVal))
    (hwf1 : wfTable (A ++ (m, d1) :: B) = true)
    (hne : d1 ≠ d2)
    (hnest : ¬(itemKind d1 = some (SnapVal.str "TypeInfo") ∧
      itemKind d2 = some (SnapVal.str "TypeInfo") ∧ itemInit d1 = itemInit d2))
    (hattr : attrs1 ≠ attrs2) (hwfM : wfTable M = true) :
    (qualName (qualName pfx C) m ∈ compare_symbol_table_snapshots pfx
        [(C, SnapVal.tup [SnapVal.str "TypeInfo", common, attrs,
          SnapVal.dict (A ++ (m, d1) :: B)])]
        [(C, SnapVal.tup [SnapVal.str "TypeInfo", common, attrs,
          SnapVal.dict (A ++ (m, d2) :: B)])] ∧
      qualName pfx C ∉ compare_symbol_table_snapshots pfx
        [(C, SnapVal.tup [SnapVal.str "TypeInfo", common, attrs,
          SnapVal.dict (A ++ (m, d1) :: B)])]
        [(C, SnapVal.tup [SnapVal.str "TypeInfo", common, attrs,
          SnapVal.dict (A ++ (m, d2) :: B)])]) ∧
    compare_symbol_table_snapshots pfx
        [(C, SnapVal.tup [SnapVal.str "TypeInfo", common, attrs1, SnapVal.dict M])]
        [(C, SnapVal.tup [SnapVal.str "TypeInfo", common, attrs2, SnapVal.dict M])] =
      {qualName pfx C} := by
  have hkeys : ((A ++ (m, d2) :: B).map Prod.fst) = ((A ++ (m, d1) :: B).map Prod.fst) := by
    simp
  have hnd2keys : (((A ++ (m, d2) :: B)).map Prod.fst).Nodup :=
    hkeys ▸ wfTable_nodupKeys hwf1
  have hitem : qualName (qualName pfx C) m ∈
      compareItems (qualName pfx C) m d1 d2 := by
    by_cases hk : itemKind d1 = itemKind d2
    case neg =>
      rw [compareItems_kind_ne hk]
      exact Finset.mem_singleton_self _
    case pos =>
      by_cases hti : itemKind d1 = some (SnapVal.str "TypeInfo")
      case pos =>
        have hii : itemInit d1 ≠ itemInit d2 := fun he => hnest ⟨hti, hk ▸ hti, he⟩
        by_cases hdd : ∃ e1 e2, itemLast d1 = some (SnapVal.dict e1) ∧
          itemLast d2 = some (SnapVal.dict e2)
        · obtain ⟨e1, e2, hl1, hl2⟩ := hdd
          rw [compareItems_typeinfo (by simp [hk]) hti hl1 hl2]
          refine Finset.mem_union_left _ ?_
          rw [if_pos hii]
          exact Finset.mem_singleton_self _
        · rw [compareItems_typeinfo_nodicts (by simp [hk]) hti
            (fun e1 e2 a b => hdd ⟨e1, e2, a, b⟩), if_pos hii]
          exact Finset.mem_singleton_self _
      case neg =>
        rw [compareItems_shallow (by simp [hk]) hti, if_pos hne]
        exact Finset.mem_singleton_self _
  constructor
  · rw [compare_single_class]
    constructor
    · rw [compare_symbol_table_snapshots]
      refine Finset.mem_union_right _ ?_
      refine mem_compareCommon.mpr ⟨m, d1, d2, ?_, ?_, hitem⟩
      · exact List.mem_append.mpr (Or.inr (List.mem_cons_self _ _))
      · exact mem_lookupTable hnd2keys (List.mem_append.mpr (Or.inr (List.mem_cons_self _ _)))
    · intro hmem
      obtain ⟨t, ht⟩ := compare_prefix_ex _ _ (qualName pfx C) (qualName pfx C) hmem
      exact qualName_ne_base (qualName pfx C) t ht.symm
  · rw [compare_symbol_table_snapshots, compareCommon, compareCommon]
    have hl : lookupTable
        [(C, SnapVal.tup [SnapVal.str "TypeInfo", common, attrs2, SnapVal.dict M])] C =
        some (SnapVal.tup [SnapVal.str "TypeInfo", common, attrs2, SnapVal.dict M]) := by
      simp [lookupTable]
    simp only [hl]
    have hti1 : itemKind (SnapVal.tup [SnapVal.str "TypeInfo", common, attrs1,
        SnapVal.dict M]) = some (SnapVal.str "TypeInfo") := rfl
    have hl1 : itemLast (SnapVal.tup [SnapVal.str "TypeInfo", common, attrs1,
        SnapVal.dict M]) = some (SnapVal.dict M) := rfl
    have hl2 : itemLast (SnapVal.tup [SnapVal.str "TypeInfo", common, attrs2,
        SnapVal.dict M]) = some (SnapVal.dict M) := rfl
    rw [compareItems_typeinfo (by simp [itemKind]) hti1 hl1 hl2]
    have hinit : itemInit
        (SnapVal.tup [SnapVal.str "TypeInfo", common, attrs1, SnapVal.dict M]) ≠ itemInit
        (SnapVal.tup [SnapVal.str "TypeInfo", common, attrs2, SnapVal.dict M]) := by
      simp [itemInit]
      intro h
      exact absurd h hattr
    rw [if_pos hinit, compare_refl_of M (qualName pfx C) hwfM]
    simp [tableNames]

/-- C2 (counterexample to the claim as stated): in module p, class C has one
member D whose snapshot value differs between the two versions (D is itself
a class whose member x changed), while the major attributes and the common
triple of C are unchanged.  The claim as stated demands that the member
name p.C.D appear in the result, but the comparator descends into the
nested class and produces only p.C.D.x: p.C.D is not in the result. -/
theorem c2_counterexample :
    (SnapVal.tup [SnapVal.str "TypeInfo", SnapVal.none, SnapVal.none,
        SnapVal.dict [("x", SnapVal.tup [SnapVal.str "Var", SnapVal.none])]]) ≠
      (SnapVal.tup [SnapVal.str "TypeInfo", SnapVal.none, SnapVal.none,
        SnapVal.dict [("x", SnapVal.tup [SnapVal.str "Var", SnapVal.bool true])]]) ∧
    compare_symbol_table_snapshots "p"
        [("C", SnapVal.tup [SnapVal.str "TypeInfo", SnapVal.none, SnapVal.none,
          SnapVal.dict [("D", SnapVal.tup [SnapVal.str "TypeInfo", SnapVal.none, SnapVal.none,
            SnapVal.dict [("x", SnapVal.tup [SnapVal.str "Var", SnapVal.none])]])]])]
        [("C", SnapVal.tup [SnapVal.str "TypeInfo", SnapVal.none, SnapVal.none,
          SnapVal.dict [("D", SnapVal.tup [SnapVal.str "TypeInfo", SnapVal.none, SnapVal.none,
            SnapVal.dict [("x", SnapVal.tup [SnapVal.str "Var", SnapVal.bool true])]])]])] =
      {"p.C.D.x"} ∧
    "p.C.D" ∉ compare_symbol_table_snapshots "p"
        [("C", SnapVal.tup [SnapVal.str "TypeInfo", SnapVal.none, SnapVal.none,
          SnapVal.dict [("D", SnapVal.tup [SnapVal.str "TypeInfo", SnapVal.none, SnapVal.none,
            SnapVal.dict [("x", SnapVal.tup [SnapVal.str "Var", SnapVal.none])]])]])]
        [("C", SnapVal.tup [SnapVal.str "TypeInfo", SnapVal.none, SnapVal.none,
          SnapVal.dict [("D", SnapVal.tup [SnapVal.str "TypeInfo", SnapVal.none, SnapVal.none,
            SnapVal.dict [("x", SnapVal.tup [SnapVal.str "Var", SnapVal.bool true])]])]])] := by
  have hres : compare_symbol_table_snapshots "p"
      [("C", SnapVal.tup [SnapVal.str "TypeInfo", SnapVal.none, SnapVal.none,
        SnapVal.dict [("D", SnapVal.tup [SnapVal.str "TypeInfo", SnapVal.none, SnapVal.none,
          SnapVal.dict [("x", SnapVal.tup [SnapVal.str "Var", SnapVal.none])]])]])]
      [("C", SnapVal.tup [SnapVal.str "TypeInfo", SnapVal.none, SnapVal.none,
        SnapVal.dict [("D", SnapVal.tup [SnapVal.str "TypeInfo", SnapVal.none, SnapVal.none,
          SnapVal.dict [("x", SnapVal.tup [SnapVal.str "Var", SnapVal.bool true])]])]])] =
      {"p.C.D.x"} := by
    simp [compare_symbol_table_snapshots, compareCommon, compareItems_eq, lookupTable,
      tableNames, qualName, itemKind, itemInit, itemLast,
      List.getLast?_cons_cons, List.getLast?_singleton]
  refine ⟨by decide, hres, ?_⟩
  rw [hres]
  decide

theorem c2_member_vs_class_isolation_witness :
    qualName (qualName "p" "C") "m" ∈ compare_symbol_table_snapshots "p"
        [("C", SnapVal.tup [SnapVal.str "TypeInfo", SnapVal.none, SnapVal.none,
          SnapVal.dict ([] ++ ("m", SnapVal.tup [SnapVal.str "Var", SnapVal.none]) :: [])])]
        [("C", SnapVal.tup [SnapVal.str "TypeInfo", SnapVal.none, SnapVal.none,
          SnapVal.dict ([] ++ ("m", SnapVal.tup [SnapVal.str "Var", SnapVal.bool true]) :: [])])] ∧
    qualName "p" "C" ∉ compare_symbol_table_snapshots "p"
        [("C", SnapVal.tup [SnapVal.str "TypeInfo", SnapVal.none, SnapVal.none,
          SnapVal.dict ([] ++ ("m", SnapVal.tup [SnapVal.str "Var", SnapVal.none]) :: [])])]
        [("C", SnapVal.tup [SnapVal.str "TypeInfo", SnapVal.none, SnapVal.none,
          SnapVal.dict ([] ++ ("m", SnapVal.tup [SnapVal.str "Var", SnapVal.bool true]) :: [])])] ∧
    compare_symbol_table_snapshots "p"
        [("C", SnapVal.tup [SnapVal.str "TypeInfo", SnapVal.none, SnapVal.none,
          SnapVal.dict [("m", SnapVal.tup [SnapVal.str "Var", SnapVal.none])]])]
        [("C", SnapVal.tup [SnapVal.str "TypeInfo", SnapVal.none, SnapVal.bool true,
          SnapVal.dict [("m", SnapVal.tup [SnapVal.str "Var", SnapVal.none])]])] =
      {qualName "p" "C"} := by
  have h := c2_member_vs_class_isolation "p" "C" "m" SnapVal.none SnapVal.none
    SnapVal.none (SnapVal.bool true)
    (SnapVal.tup [SnapVal.str "Var", SnapVal.none])
    (SnapVal.tup [SnapVal.str "Var", SnapVal.bool true])
    [] [] [("m", SnapVal.tup [SnapVal.str "Var", SnapVal.none])]
    (by decide) (by decide) (by decide) (by decide) (by decide)
  exact ⟨h.1.1, h.1.2, h.2⟩

/-! ### The type model and the type snapshot visitor

MypyType models the closed set of type variants dispatched over by
SnapshotTypeVisitor.  Fields keep the names of the attributes the visitor
reads; Instance stores the result of typ.type.fullname(), CallableType
stores the result of the is_type_obj() call as a field, and tvars stands
for the callable attribute named variables, its own declared type-variable
list (never read by the visitor).  TypedDictType's required_keys models the Python set of
required keys. -/

inductive MypyType where
  | UnboundType (name : String) (optional : Bool) (empty_tuple_index : Bool)
      (args : List MypyType)
  | AnyType
  | NoneTyp
  | UninhabitedType
  | ErasedType
  | DeletedType
  | Instance (class_fullname : String) (args : List MypyType)
  | TypeVarType (name fullname : String) (raw_id meta_level : Int)
      (values : List MypyType) (upper_bound : MypyType) (variance : Int)
  | CallableType (arg_types : List MypyType) (ret_type : MypyType)
      (arg_names : List (Option String)) (arg_kinds : List Nat)
      (tvars : List String) (is_type_obj : Bool) (is_ellipsis_args : Bool)
  | TupleType (items : List MypyType)
  | TypedDictType (items : List (String × MypyType)) (required_keys : List String)
  | UnionType (items : List MypyType)
  | Overloaded (items : List MypyType)
  | PartialType
  | TypeType (item : MypyType)

/-- Encoding of an optional string (such as an argument name) inside a
snapshot: Python embeds either the string or None in the tuple. -/
def sOptStr : Option String → SnapVal
  | some s => SnapVal.str s
  | Option.none => SnapVal.none

mutual

/-- snapshot_type: create a snapshot representation of a type using nested
tuples, dispatching over the variant as SnapshotTypeVisitor does.
Option.none models the RuntimeError raised on a PartialType. -/
def snapshot_type : MypyType → Option SnapVal
  | .UnboundType name opt eti args => do
      let as ← snapshot_type_list args
      pure (SnapVal.tup [SnapVal.str "UnboundType", SnapVal.str name,
        SnapVal.bool opt, SnapVal.bool eti, SnapVal.tup as])
  | .AnyType => some (SnapVal.tup [SnapVal.str "AnyType"])
  | .NoneTyp => some (SnapVal.tup [SnapVal.str "NoneTyp"])
  | .UninhabitedType => some (SnapVal.tup [SnapVal.str "UninhabitedType"])
  | .ErasedType => some (SnapVal.tup [SnapVal.str "ErasedType"])
  | .DeletedType => some (SnapVal.tup [SnapVal.str "DeletedType"])
  | .Instance class_fullname args => do
      let as ← snapshot_type_list args
      pure (SnapVal.tup [SnapVal.str "Instance", SnapVal.str class_fullname, SnapVal.tup as])
  | .TypeVarType name fullname raw_id meta_level values upper_bound variance => do
      let vs ← snapshot_type_list values
      let ub ← snapshot_type upper_bound
      pure (SnapVal.tup [SnapVal.str "TypeVar", SnapVal.str name, SnapVal.str fullname,
        SnapVal.int raw_id, SnapVal.int meta_level, SnapVal.tup vs, ub, SnapVal.int variance])
  | .CallableType arg_types ret_type arg_names arg_kinds _tvars is_type_obj
      is_ellipsis_args => do
      let ats ← snapshot_type_list arg_types
      let rt ← snapshot_type ret_type
      pure (SnapVal.tup [SnapVal.str "CallableType", SnapVal.tup ats, rt,
        SnapVal.tup (arg_names.map sOptStr),
        SnapVal.tup (arg_kinds.map fun k : Nat => SnapVal.int k),
        SnapVal.bool is_type_obj, SnapVal.bool is_ellipsis_args])
  | .TupleType items => do
      let its ← snapshot_type_list items
      pure (SnapVal.tup [SnapVal.str "TupleType", SnapVal.tup its])
  | .TypedDictType items required_keys => do
      let its ← snapshot_pair_list items
      pure (SnapVal.tup [SnapVal.str "TypedDictType", SnapVal.tup its,
        SnapVal.tup ((Finset.sort (fun a b : String => a ≤ b)
          required_keys.toFinset).map SnapVal.str)])
  | .UnionType items => do
      let its ← snapshot_type_list items
      pure (SnapVal.tup [SnapVal.str "UnionType", SnapVal.tup (sortSnaps its)])
  | .Overloaded items => do
      let its ← snapshot_type_list items
      pure (SnapVal.tup [SnapVal.str "Overloaded", SnapVal.tup its])
  | .PartialType => Option.none
  | .TypeType item => do
      let it ← snapshot_type item
      pure (SnapVal.tup [SnapVal.str "TypeType", it])

/-- The elementwise traversal underlying snapshot_types. -/
def snapshot_type_list : List MypyType → Option (List SnapVal)
  | [] => some []
  | t :: rest => do
      let s ← snapshot_type t
      let rs ← snapshot_type_list rest
      pure (s :: rs)

/-- The traversal of TypedDictType items, producing (key, snapshot) pairs. -/
def snapshot_pair_list : List (String × MypyType) → Option (List SnapVal)
  | [] => some []
  | (k, t) :: rest => do
      let s ← snapshot_type t
      let rs ← snapshot_pair_list rest
      pure (SnapVal.tup [SnapVal.str k, s] :: rs)

end

/-- snapshot_types: the tuple of the snapshots of a sequence of types. -/
def snapshot_types (types : List MypyType) : Option SnapVal := do
  let ss ← snapshot_type_list types
  pure (SnapVal.tup ss)

/-- snapshot_optional_type: None stays None inside the snapshot. -/
def snapshot_optional_type : Option MypyType → Option SnapVal
  | some t => snapshot_type t
  | Option.none => some SnapVal.none

/-! ### The symbol-table node model and the snapshot builder -/

/-- Modelled from the spec: the reference-kind constants imported from
mypy.nodes, a module outside the snapshot core; only their distinctness is
relevant here. -/
def LDEF : Int := 0

def GDEF : Int := 1

def MDEF : Int := 2

def MODULE_REF : Int := 3

def TVAR : Int := 4

def TYPE_ALIAS : Int := 6

def UNBOUND_IMPORTED : Int := 7

/-- The attributes of a plain function-like node (FuncItem / FuncDef) read
by the builder: full name, argument names, argument kinds, the inferred
type if any, and the is-property flag. -/
structure FuncItemData where
  fullname : String
  arg_names : List (Option String)
  arg_kinds : List Nat
  typ : Option MypyType
  is_property : Bool

mutual

/-- The symbol-node variants dispatched over by the builder: MypyFile,
TypeVarExpr, FuncItem, OverloadedFuncDef, Var, Decorator and TypeInfo,
each carrying the attributes the builder reads.  A TypeInfo's mro is kept
as the list of ancestor full names, which is all the builder reads of it,
and its bases as the list of direct base types. -/
inductive SymbolNode where
  | file (fullname : String)
  | tvarExpr (fullname : String) (variance : Int) (values : List MypyType)
      (upper_bound : MypyType)
  | funcItem (f : FuncItemData)
  | overloaded (fullname : String) (items : List OverloadPart) (typ : Option MypyType)
      (is_property : Bool)
  | var (fullname : String) (typ : Option MypyType)
  | decorator (fullname : String) (is_overload : Bool) (var_type : Option MypyType)
      (func : FuncItemData)
  | typeInfo (fullname : String)
      (is_abstract is_enum fallback_to_any is_named_tuple is_newtype : Bool)
      (tuple_type typeddict_type : Option MypyType) (mro : List String)
      (type_vars : List String) (bases : List MypyType) (promote : Option MypyType)
      (names : List (String × SymbolTableNode))

/-- An item of an overloaded function definition: a Decorator (with its
variable type) or a plain function. -/
inductive OverloadPart where
  | dec (is_overload : Bool) (var_type : Option MypyType) (func : FuncItemData)
  | fn (f : FuncItemData)

/-- A symbol-table entry: reference kind, optional node, module-public
flag, normalization flag, and the alias fields read for TYPE_ALIAS
entries. -/
inductive SymbolTableNode where
  | mk (kind : Int) (node : Option SymbolNode) (module_public : Bool)
      (normalized : Bool) (alias_tvars : List String)
      (type_override : Option MypyType)

end

/-- node.fullname() for each node variant. -/
def SymbolNode.fullname : SymbolNode → String
  | .file fn => fn
  | .tvarExpr fn _ _ _ => fn
  | .funcItem f => f.fullname
  | .overloaded fn _ _ _ => fn
  | .var fn _ => fn
  | .decorator fn _ _ _ => fn
  | .typeInfo fn _ _ _ _ _ _ _ _ _ _ _ _ => fn

/-- symbol.kind. -/
def SymbolTableNode.kind : SymbolTableNode → Int
  | .mk k _ _ _ _ _ => k

/-- Modelled from the spec: mypy.util.get_prefix, the module prefix of a
fully qualified name, obtained by splitting at the last dot (the whole
name when there is no dot).  mypy.util is outside the snapshot core. -/
def parentName (fullname : String) : String :=
  match fullname.data.reverse.dropWhile fun c => c ≠ '.' with
  | [] => fullname
  | _ :: rest => String.mk rest.reverse

/-- The untyped signature of a plain function: the pair of the argument
name tuple and the argument kind tuple. -/
def untypedSigOfFunc (f : FuncItemData) : SnapVal :=
  SnapVal.tup [SnapVal.tup (f.arg_names.map sOptStr),
    SnapVal.tup (f.arg_kinds.map fun k : Nat => SnapVal.int k)]

/-- The per-item traversal of an overload group in
snapshot_untyped_signature: a Decorator contributes the snapshot of its
variable type when present and a sentinel otherwise; a plain item recurses. -/
def untypedSigItems : List OverloadPart → Option (List SnapVal)
  | [] => some []
  | .dec _ var_type _ :: rest => do
      let v ← match var_type with
        | some t => snapshot_type t
        | Option.none => some (SnapVal.tup [SnapVal.str "DecoratorWithoutType"])
      let rs ← untypedSigItems rest
      pure (v :: rs)
  | .fn f :: rest => do
      let rs ← untypedSigItems rest
      pure (untypedSigOfFunc f :: rs)

/-- snapshot_untyped_signature: the snapshot of the signature of a
function-like node that has no explicit type.  Only function-like nodes
reach it in the source (by its type annotation); other variants map to
Option.none. -/
def snapshot_untyped_signature : SymbolNode → Option SnapVal
  | .funcItem f => some (untypedSigOfFunc f)
  | .overloaded _ items _ _ => do
      let rs ← untypedSigItems items
      pure (SnapVal.tup rs)
  | _ => Option.none

mutual

/-- snapshot_symbol_table: the snapshot dict of a symbol table, one entry
per name in table order; Option.none models the assertion failures. -/
def snapshot_symbol_table (pfx : String) :
    List (String × SymbolTableNode) → Option (List (String × SnapVal))
  | [] => some []
  | (name, symbol) :: rest => do
      let v ← snapshotEntry pfx name symbol
      let tail ← snapshot_symbol_table pfx rest
      pure ((name, v) :: tail)

/-- The body of the loop of snapshot_symbol_table for one entry. -/
def snapshotEntry (pfx name : String) (symbol : SymbolTableNode) : Option SnapVal :=
  match symbol with
  | .mk kind node module_public normalized alias_tvars type_override =>
    let fullname := node.map SymbolNode.fullname
    let common := SnapVal.tup [sOptStr fullname, SnapVal.int kind,
      SnapVal.bool module_public]
    if kind = MODULE_REF then
      match node with
      | some (.file _) => some (SnapVal.tup [SnapVal.str "Moduleref", common])
      | _ => Option.none
    else if kind = TVAR then
      match node with
      | some (.tvarExpr _ variance values upper_bound) => do
          let vs ← snapshot_type_list values
          let ub ← snapshot_type upper_bound
          pure (SnapVal.tup [SnapVal.str "TypeVar", SnapVal.int variance,
            SnapVal.list vs, ub])
      | _ => Option.none
    else if kind = TYPE_ALIAS then do
      let ov ← snapshot_optional_type type_override
      pure (SnapVal.tup [SnapVal.str "TypeAlias",
        SnapVal.list (alias_tvars.map SnapVal.str), ov])
    else if kind = UNBOUND_IMPORTED then Option.none
    else
      match node with
      | some n =>
        if parentName n.fullname ≠ pfx then
          some (SnapVal.tup [SnapVal.str "CrossRef", common, SnapVal.bool normalized])
        else snapshot_definition (some n) common
      | Option.none => snapshot_definition Option.none common

/-- snapshot_definition: the snapshot of a symbol-table node; Option.none
models the assert False on unexpected node variants. -/
def snapshot_definition (node : Option SymbolNode) (common : SnapVal) : Option SnapVal :=
  match node with
  | some (.funcItem f) => do
      let signature ← match f.typ with
        | some t => snapshot_type t
        | Option.none => snapshot_untyped_signature (SymbolNode.funcItem f)
      pure (SnapVal.tup [SnapVal.str "Func", common, SnapVal.bool f.is_property, signature])
  | some (.overloaded fullname items typ is_property) => do
      let signature ← match typ with
        | some t => snapshot_type t
        | Option.none =>
            snapshot_untyped_signature (SymbolNode.overloaded fullname items typ is_property)
      pure (SnapVal.tup [SnapVal.str "Func", common, SnapVal.bool is_property, signature])
  | some (.var _ typ) => do
      let t ← snapshot_optional_type typ
      pure (SnapVal.tup [SnapVal.str "Var", common, t])
  | some (.decorator _ is_overload var_type func) => do
      let vt ← snapshot_optional_type var_type
      let fd ← snapshot_definition (some (SymbolNode.funcItem func)) common
      pure (SnapVal.tup [SnapVal.str "Decorator", SnapVal.bool is_overload, vt, fd])
  | some (.typeInfo fullname is_abstract is_enum fallback_to_any is_named_tuple
      is_newtype tuple_type typeddict_type mro type_vars bases promote names) => do
      let tt ← snapshot_optional_type tuple_type
      let tdt ← snapshot_optional_type typeddict_type
      let bs ← snapshot_type_list bases
      let pr ← snapshot_optional_type promote
      let attrs := SnapVal.tup [SnapVal.bool is_abstract, SnapVal.bool is_enum,
        SnapVal.bool fallback_to_any, SnapVal.bool is_named_tuple,
        SnapVal.bool is_newtype, tt, tdt,
        SnapVal.list (mro.map SnapVal.str), SnapVal.list (type_vars.map SnapVal.str),
        SnapVal.list bs, pr]
      let symbol_table ← snapshot_symbol_table fullname names
      pure (SnapVal.tup [SnapVal.str "TypeInfo", common, attrs, SnapVal.dict symbol_table])
  | _ => Option.none

end

/-! ### Claims about the type snapshot visitor -/

/-- C8: Callable generics gap: two callable types that agree on argument
types, return type, argument names, argument kinds, the type-object
constructor flag and the ellipsis-args flag but differ in their own
declared generic type-variable list snapshot identically: the callable
snapshot omits the variables list entirely. -/
theorem c8_callable_generics_gap (arg_types : List MypyType) (ret_type : MypyType)
    (arg_names : List (Option String)) (arg_kinds : List Nat)
    (tvars1 tvars2 : List String) (is_type_obj is_ellipsis_args : Bool) :
    snapshot_type (MypyType.CallableType arg_types ret_type arg_names arg_kinds
        tvars1 is_type_obj is_ellipsis_args) =
      snapshot_type (MypyType.CallableType arg_types ret_type arg_names arg_kinds
        tvars2 is_type_obj is_ellipsis_args) := rfl

/-- C4: Union snapshots are order- and multiplicity-independent: two union
types whose member lists produce the same set of member snapshots receive
equal snapshot values, and the union snapshot embeds the sorted,
duplicate-free sequence of the member snapshots. -/
theorem c4_union_order_independent (items1 items2 : List MypyType)
    (s1 s2 : List SnapVal)
    (h1 : snapshot_type_list items1 = some s1)
    (h2 : snapshot_type_list items2 = some s2)
    (hset : s1.toFinset = s2.toFinset) :
    snapshot_type (MypyType.UnionType items1) = snapshot_type (MypyType.UnionType items2) ∧
      ∀ out, snapshot_type (MypyType.UnionType items1) =
          some (SnapVal.tup [SnapVal.str "UnionType", SnapVal.tup out]) →
        List.Sorted leV out ∧ out.Nodup ∧ out.toFinset = s1.toFinset := by
  have e1 : snapshot_type (MypyType.UnionType items1) =
      some (SnapVal.tup [SnapVal.str "UnionType", SnapVal.tup (sortSnaps s1)]) := by
    simp [snapshot_type, h1]
  have e2 : snapshot_type (MypyType.UnionType items2) =
      some (SnapVal.tup [SnapVal.str "UnionType", SnapVal.tup (sortSnaps s2)]) := by
    simp [snapshot_type, h2]
  have hsort : sortSnaps s1 = sortSnaps s2 := by
    unfold sortSnaps
    rw [hset]
  constructor
  · rw [e1, e2, hsort]
  · intro out hout
    rw [e1] at hout
    have : sortSnaps s1 = out := by
      have h := Option.some.inj hout
      simpa using h
    subst this
    refine ⟨Finset.sort_sorted leV _, Finset.sort_nodup leV _, ?_⟩
    exact Finset.sort_toFinset leV _

theorem c4_union_order_independent_witness :
    snapshot_type_list [MypyType.Instance "builtins.int" [], MypyType.Instance "builtins.str" []] =
      some [SnapVal.tup [SnapVal.str "Instance", SnapVal.str "builtins.int", SnapVal.tup []],
        SnapVal.tup [SnapVal.str "Instance", SnapVal.str "builtins.str", SnapVal.tup []]] ∧
    snapshot_type_list [MypyType.Instance "builtins.str" [], MypyType.Instance "builtins.int" [],
        MypyType.Instance "builtins.int" []] =
      some [SnapVal.tup [SnapVal.str "Instance", SnapVal.str "builtins.str", SnapVal.tup []],
        SnapVal.tup [SnapVal.str "Instance", SnapVal.str "builtins.int", SnapVal.tup []],
        SnapVal.tup [SnapVal.str "Instance", SnapVal.str "builtins.int", SnapVal.tup []]] ∧
    snapshot_type (MypyType.UnionType
        [MypyType.Instance "builtins.int" [], MypyType.Instance "builtins.str" []]) =
      snapshot_type (MypyType.UnionType
        [MypyType.Instance "builtins.str" [], MypyType.Instance "builtins.int" [],
          MypyType.Instance "builtins.int" []]) := by
  refine ⟨by decide, by decide, ?_⟩
  exact (c4_union_order_independent
    [MypyType.Instance "builtins.int" [], MypyType.Instance "builtins.str" []]
    [MypyType.Instance "builtins.str" [], MypyType.Instance "builtins.int" [],
      MypyType.Instance "builtins.int" []]
    [SnapVal.tup [SnapVal.str "Instance", SnapVal.str "builtins.int", SnapVal.tup []],
      SnapVal.tup [SnapVal.str "Instance", SnapVal.str "builtins.str", SnapVal.tup []]]
    [SnapVal.tup [SnapVal.str "Instance", SnapVal.str "builtins.str", SnapVal.tup []],
      SnapVal.tup [SnapVal.str "Instance", SnapVal.str "builtins.int", SnapVal.tup []],
      SnapVal.tup [SnapVal.str "Instance", SnapVal.str "builtins.int", SnapVal.tup []]]
    (by decide) (by decide) (by decide)).1

/-! ### Claims about error handling and the builder -/

theorem snapshotEntry_unbound {pfx name : String} {symbol : SymbolTableNode}
    (hk : symbol.kind = UNBOUND_IMPORTED) : snapshotEntry pfx name symbol = Option.none := by
  obtain ⟨kind, node, module_public, normalized, alias_tvars, type_override⟩ := symbol
  simp only [SymbolTableNode.kind] at hk
  subst hk
  rw [snapshotEntry.eq_def]
  simp [UNBOUND_IMPORTED, MODULE_REF, TVAR, TYPE_ALIAS]

theorem snapshot_symbol_table_none_of_entry {pfx : String}
    {table : List (String × SymbolTableNode)} {name : String} {symbol : SymbolTableNode}
    (hmem : (name, symbol) ∈ table) (hent : snapshotEntry pfx name symbol = Option.none) :
    snapshot_symbol_table pfx table = Option.none := by
  induction table with
  | nil => simp at hmem
  | cons e rest ih =>
    obtain ⟨k, s⟩ := e
    rw [snapshot_symbol_table]
    rcases List.mem_cons.mp hmem with he | hmem2
    · cases he
      rw [hent]
      rfl
    · cases hes : snapshotEntry pfx k s with
      | none => rfl
      | some v =>
        rw [ih hmem2]
        rfl

/-- C7: Fatal invariant violations: snapshot_type on a Partial type fails
immediately (the RuntimeError, modelled as Option.none), and
snapshot_symbol_table fails on any table containing an entry of the
unbound-import reference kind; neither condition is recovered or
reflected in a returned snapshot. -/
theorem c7_fatal_invariant_violations :
    snapshot_type MypyType.PartialType = Option.none ∧
    ∀ (pfx : String) (table : List (String × SymbolTableNode)) (name : String)
      (symbol : SymbolTableNode), (name, symbol) ∈ table →
      symbol.kind = UNBOUND_IMPORTED →
      snapshot_symbol_table pfx table = Option.none := by
  constructor
  · rfl
  · intro pfx table name symbol hmem hk
    exact snapshot_symbol_table_none_of_entry hmem (snapshotEntry_unbound hk)

theorem c7_fatal_invariant_violations_witness :
    ("y", SymbolTableNode.mk UNBOUND_IMPORTED Option.none true false [] Option.none) ∈
      [("y", SymbolTableNode.mk UNBOUND_IMPORTED Option.none true false [] Option.none)] ∧
    (SymbolTableNode.mk UNBOUND_IMPORTED Option.none true false [] Option.none).kind =
      UNBOUND_IMPORTED ∧
    snapshot_symbol_table "m"
      [("y", SymbolTableNode.mk UNBOUND_IMPORTED Option.none true false [] Option.none)] =
      Option.none :=
  ⟨List.mem_cons_self _ _, rfl,
    c7_fatal_invariant_violations.2 "m" _ "y" _ (List.mem_cons_self _ _) rfl⟩

theorem nodupDicts_sOptStr (x : Option String) : nodupDicts (sOptStr x) = true := by
  cases x <;> rfl

theorem snapshotEntry_crossref {pfx name : String} {kind : Int} {n : SymbolNode}
    {module_public normalized : Bool} {atv : List String} {tov : Option MypyType}
    (hk1 : kind ≠ MODULE_REF) (hk2 : kind ≠ TVAR) (hk3 : kind ≠ TYPE_ALIAS)
    (hk4 : kind ≠ UNBOUND_IMPORTED) (hcross : parentName n.fullname ≠ pfx) :
    snapshotEntry pfx name (SymbolTableNode.mk kind (some n) module_public normalized atv tov) =
      some (SnapVal.tup [SnapVal.str "CrossRef",
        SnapVal.tup [SnapVal.str n.fullname, SnapVal.int kind, SnapVal.bool module_public],
        SnapVal.bool normalized]) := by
  rw [snapshotEntry.eq_def]
  dsimp only
  rw [if_neg hk1, if_neg hk2, if_neg hk3, if_neg hk4, if_pos hcross]
  simp [sOptStr]

/-- C3: Cross-module shallowness: a real-definition entry whose target full
name has a module prefix different from the builder's name prefix is
snapshotted as exactly the shallow CrossRef triple of the common tuple and
the normalization flag; hence replacing the target node by any other node
with the same full name (in particular one with a different internal
type), keeping kind, public flag and normalization, yields the same
snapshot and an empty diff for that entry. -/
theorem c3_cross_module_shallowness (pfx name : String) (kind : Int) (n1 n2 : SymbolNode)
    (module_public normalized : Bool) (atv1 atv2 : List String) (tov1 tov2 : Option MypyType)
    (hk1 : kind ≠ MODULE_REF) (hk2 : kind ≠ TVAR) (hk3 : kind ≠ TYPE_ALIAS)
    (hk4 : kind ≠ UNBOUND_IMPORTED)
    (hfn : n1.fullname = n2.fullname)
    (hcross : parentName n1.fullname ≠ pfx) :
    snapshotEntry pfx name (SymbolTableNode.mk kind (some n1) module_public normalized
        atv1 tov1) =
      some (SnapVal.tup [SnapVal.str "CrossRef",
        SnapVal.tup [SnapVal.str n1.fullname, SnapVal.int kind, SnapVal.bool module_public],
        SnapVal.bool normalized]) ∧
    snapshotEntry pfx name (SymbolTableNode.mk kind (some n1) module_public normalized
        atv1 tov1) =
      snapshotEntry pfx name (SymbolTableNode.mk kind (some n2) module_public normalized
        atv2 tov2) ∧
    ∀ S1 S2,
      snapshot_symbol_table pfx
        [(name, SymbolTableNode.mk kind (some n1) module_public normalized atv1 tov1)] =
        some S1 →
      snapshot_symbol_table pfx
        [(name, SymbolTableNode.mk kind (some n2) module_public normalized atv2 tov2)] =
        some S2 →
      compare_symbol_table_snapshots pfx S1 S2 = ∅ := by
  have e1 := @snapshotEntry_crossref pfx name kind n1 module_public normalized atv1 tov1
    hk1 hk2 hk3 hk4 hcross
  have e2 := @snapshotEntry_crossref pfx name kind n2 module_public normalized atv2 tov2
    hk1 hk2 hk3 hk4 (hfn ▸ hcross)
  refine ⟨e1, by rw [e1, e2, hfn], ?_⟩
  intro S1 S2 h1 h2
  have t1 : snapshot_symbol_table pfx
      [(name, SymbolTableNode.mk kind (some n1) module_public normalized atv1 tov1)] =
      some [(name, SnapVal.tup [SnapVal.str "CrossRef",
        SnapVal.tup [SnapVal.str n1.fullname, SnapVal.int kind, SnapVal.bool module_public],
        SnapVal.bool normalized])] := by
    rw [snapshot_symbol_table, e1, snapshot_symbol_table]
    rfl
  have t2 : snapshot_symbol_table pfx
      [(name, SymbolTableNode.mk kind (some n2) module_public normalized atv2 tov2)] =
      some [(name, SnapVal.tup [SnapVal.str "CrossRef",
        SnapVal.tup [SnapVal.str n1.fullname, SnapVal.int kind, SnapVal.bool module_public],
        SnapVal.bool normalized])] := by
    rw [snapshot_symbol_table, e2, ← hfn, snapshot_symbol_table]
    rfl
  rw [t1] at h1
  rw [t2] at h2
  cases Option.some.inj h1
  cases Option.some.inj h2
  refine compare_refl_of _ pfx ?_
  simp [wfTable, wfTableVals, nodupDicts, nodupDictsList]

theorem c3_cross_module_shallowness_witness :
    (GDEF ≠ MODULE_REF ∧ GDEF ≠ TVAR ∧ GDEF ≠ TYPE_ALIAS ∧ GDEF ≠ UNBOUND_IMPORTED ∧
      parentName (SymbolNode.var "x.y" (some MypyType.AnyType)).fullname ≠ "m") ∧
    snapshotEntry "m" "y" (SymbolTableNode.mk GDEF
        (some (SymbolNode.var "x.y" (some MypyType.AnyType))) true false [] Option.none) =
      snapshotEntry "m" "y" (SymbolTableNode.mk GDEF
        (some (SymbolNode.var "x.y" (some (MypyType.Instance "builtins.int" []))))
        true false [] Option.none) := by
  have h := c3_cross_module_shallowness "m" "y" GDEF
    (SymbolNode.var "x.y" (some MypyType.AnyType))
    (SymbolNode.var "x.y" (some (MypyType.Instance "builtins.int" [])))
    true false [] [] Option.none Option.none
    (by decide) (by decide) (by decide) (by decide) (by decide) (by decide)
  exact ⟨⟨by decide, by decide, by decide, by decide, by decide⟩, h.2.1⟩

theorem snapInt_inj : Function.Injective (fun k : Nat => SnapVal.int k) := by
  intro x y h
  simpa using h

theorem snapInt_map_inj {a b : List Nat}
    (h : a.map (fun k : Nat => SnapVal.int k) = b.map (fun k : Nat => SnapVal.int k)) :
    a = b :=
  List.map_injective_iff.mpr snapInt_inj h

/-- Comparing two single-entry tables bound to the same name with equal
non-TypeInfo kinds and different values yields exactly the qualified
name. -/
theorem compare_singleton_shallow_ne {pfx name : String} {v1 v2 : SnapVal}
    (hk : ¬itemKind v1 ≠ itemKind v2) (hti : itemKind v1 ≠ some (SnapVal.str "TypeInfo"))
    (hne : v1 ≠ v2) :
    compare_symbol_table_snapshots pfx [(name, v1)] [(name, v2)] = {qualName pfx name} := by
  rw [compare_symbol_table_snapshots, compareCommon, compareCommon]
  have hl : lookupTable [(name, v2)] name = some v2 := by simp [lookupTable]
  simp only [hl]
  rw [compareItems_shallow hk hti, if_pos hne]
  simp [tableNames]

/-- C6: Untyped-signature sensitivity: a function-like declaration with no
attached type object is snapshotted with the pair of its argument-name and
argument-kind sequences, so two versions that agree on names and the
property flag but differ in their argument-kind sequence produce unequal
Func snapshots, and comparing tables holding them triggers the qualified
name. -/
theorem c6_untyped_signature_sensitivity (f1 f2 : FuncItemData) (common : SnapVal)
    (pfx name : String)
    (ht1 : f1.typ = Option.none) (ht2 : f2.typ = Option.none)
    (hnames : f1.arg_names = f2.arg_names) (hprop : f1.is_property = f2.is_property)
    (hkinds : f1.arg_kinds ≠ f2.arg_kinds) :
    ∃ v1 v2,
      snapshot_definition (some (SymbolNode.funcItem f1)) common = some v1 ∧
      snapshot_definition (some (SymbolNode.funcItem f2)) common = some v2 ∧
      snapshot_untyped_signature (SymbolNode.funcItem f1) ≠
        snapshot_untyped_signature (SymbolNode.funcItem f2) ∧
      v1 ≠ v2 ∧
      compare_symbol_table_snapshots pfx [(name, v1)] [(name, v2)] =
        {qualName pfx name} := by
  have e1 : snapshot_definition (some (SymbolNode.funcItem f1)) common =
      some (SnapVal.tup [SnapVal.str "Func", common, SnapVal.bool f1.is_property,
        untypedSigOfFunc f1]) := by
    rw [snapshot_definition]
    rw [ht1]
    rfl
  have e2 : snapshot_definition (some (SymbolNode.funcItem f2)) common =
      some (SnapVal.tup [SnapVal.str "Func", common, SnapVal.bool f2.is_property,
        untypedSigOfFunc f2]) := by
    rw [snapshot_definition]
    rw [ht2]
    rfl
  have hsig : untypedSigOfFunc f1 ≠ untypedSigOfFunc f2 := by
    intro he
    apply hkinds
    apply snapInt_map_inj
    have h2 := congrArg (fun v => match v with
      | SnapVal.tup [_, SnapVal.tup ks] => ks
      | _ => ([] : List SnapVal)) he
    dsimp only [untypedSigOfFunc] at h2
    exact h2
  have hvne : (SnapVal.tup [SnapVal.str "Func", common, SnapVal.bool f1.is_property,
      untypedSigOfFunc f1]) ≠ (SnapVal.tup [SnapVal.str "Func", common,
      SnapVal.bool f2.is_property, untypedSigOfFunc f2]) := by
    intro he
    have h2 := congrArg (fun v => match v with
      | SnapVal.tup [_, _, _, s] => s
      | _ => SnapVal.none) he
    exact hsig h2
  refine ⟨_, _, e1, e2, ?_, hvne, ?_⟩
  · simp only [snapshot_untyped_signature]
    intro he
    exact hsig (Option.some.inj he)
  · exact compare_singleton_shallow_ne (by simp [itemKind]) (by simp [itemKind]) hvne

theorem c6_untyped_signature_sensitivity_witness :
    (FuncItemData.mk "m.f" [some "x"] [0] Option.none false).typ = Option.none ∧
    (FuncItemData.mk "m.f" [some "x"] [3] Option.none false).typ = Option.none ∧
    (FuncItemData.mk "m.f" [some "x"] [0] Option.none false).arg_kinds ≠
      (FuncItemData.mk "m.f" [some "x"] [3] Option.none false).arg_kinds ∧
    ∃ v1 v2,
      snapshot_definition (some (SymbolNode.funcItem
        (FuncItemData.mk "m.f" [some "x"] [0] Option.none false))) SnapVal.none = some v1 ∧
      snapshot_definition (some (SymbolNode.funcItem
        (FuncItemData.mk "m.f" [some "x"] [3] Option.none false))) SnapVal.none = some v2 ∧
      snapshot_untyped_signature (SymbolNode.funcItem
        (FuncItemData.mk "m.f" [some "x"] [0] Option.none false)) ≠
        snapshot_untyped_signature (SymbolNode.funcItem
          (FuncItemData.mk "m.f" [some "x"] [3] Option.none false)) ∧
      v1 ≠ v2 ∧
      compare_symbol_table_snapshots "m" [("f", v1)] [("f", v2)] = {qualName "m" "f"} := by
  refine ⟨rfl, rfl, by decide, ?_⟩
  exact c6_untyped_signature_sensitivity
    (FuncItemData.mk "m.f" [some "x"] [0] Option.none false)
    (FuncItemData.mk "m.f" [some "x"] [3] Option.none false)
    SnapVal.none "m" "f" rfl rfl rfl rfl (by decide)
